import Mathlib

/-!
Shallow embedding of the price-path prediction engine and the order-book
momentum (OBM) signal detector of this repository.

The reference implementation of the prediction engine is the plain scalar
variant (file `unnamed/part_003`: `calculatePricePrediction`,
`calculateRefractiveIndices`, `determineEntryPoints`, `findOptimalPricePath`,
`calculateOpticalMomentum`, `calculateVolatility`) together with
`findClosestPriceIndex` from `js/utils.js`.  The OBM detector is embedded from
`script.js` (`calculateOBM` with its helpers `calculateLinearRegressionSlope`,
`exponentialMovingAverage`, `findDivergences`, `findLowestInRange`,
`findHighestInRange`).

Modelling conventions:
* JavaScript numbers are modelled as rationals.  The four transcendental
  library functions used by the code (`Math.exp`, `Math.cos`, `Math.atan2`,
  `Math.sqrt`) are supplied as an explicit parameter record `JsMath`; theorems
  that need analytic facts about them take the corresponding property of the
  real function as a hypothesis (`ExpLike`, `CosLike`), which `Real.exp` and
  `Real.cos` satisfy.
* `Date` values are modelled by their millisecond timestamps, so
  `new Date(ts * 1000)` becomes the rational `ts * 1000` and `getTime`
  equality becomes equality of rationals.
* Array indexing out of bounds is modelled by `List.getD` with a default;
  every claim is stated under the well-formedness bounds of the data model,
  where all accesses performed by the source are in range.
* The one place where the source can produce IEEE NaN with well-formed input
  (the OBM distance weight when the price grid has a single level) is
  modelled exactly, with a NaN-aware number type `JNum`; see `rowPressures`.
-/

/-- The transcendental functions of the JS `Math` library used by the code,
supplied as data so that every definition below is computable. -/
structure JsMath where
  exp : ℚ → ℚ
  cos : ℚ → ℚ
  atan2 : ℚ → ℚ → ℚ
  sqrt : ℚ → ℚ

/-- The property of `Real.exp` actually used by the claims: on nonpositive
arguments the exponential is strictly positive and at most one. -/
def ExpLike (f : ℚ → ℚ) : Prop :=
  ∀ x : ℚ, x ≤ 0 → 0 < f x ∧ f x ≤ 1

/-- The property of `Real.cos` actually used by the claims: it is bounded by
one in absolute value. -/
def CosLike (f : ℚ → ℚ) : Prop :=
  ∀ x : ℚ, |f x| ≤ 1

/-- A concrete computable instance of `JsMath` whose `exp` satisfies
`ExpLike` and whose `cos` satisfies `CosLike`, used to evaluate the
definitions on concrete inputs. -/
def M0 : JsMath where
  exp := fun x => if x ≤ 0 then 1 / (1 - x) else 1
  cos := fun _ => 0
  atan2 := fun _ _ => 0
  sqrt := fun _ => 0

theorem M0_expLike : ExpLike M0.exp := by
  intro x hx
  have h1 : (0 : ℚ) < 1 - x := by linarith
  constructor
  · simp only [M0, if_pos hx]
    positivity
  · simp only [M0, if_pos hx]
    rw [div_le_one h1]
    linarith

theorem M0_cosLike : CosLike M0.cos := by
  intro x
  simp [M0]

/-- A candlestick; only `timestamp` (seconds) and `close` are used by the
core. -/
structure Candle where
  timestamp : ℚ
  close : ℚ
deriving Inhabited, DecidableEq

/-- The heatmap input: `timestamps` in seconds, a fixed price grid
`priceLevels`, and one signed-volume row per timestamp.  A row of the JS
structure is the object `heatmap[i]` whose only used field is `volumes`, so a
row is modelled as the volume list itself. -/
structure HeatmapData where
  timestamps : List ℚ
  priceLevels : List ℚ
  heatmap : List (List ℚ)
deriving Inhabited, DecidableEq

/-- An entry point for one path search (field `index` is the JS property
`index`, a price-grid index). -/
structure EntryPoint where
  price : ℚ
  index : ℕ
  timeIndex : ℕ
deriving Inhabited, DecidableEq

/-- A point of a predicted path; `time` is the millisecond timestamp of the
JS `Date`. -/
structure PathPoint where
  time : ℚ
  price : ℚ
  resistance : ℚ
deriving Inhabited, DecidableEq

/-- One cell of the resistance map computed inside `findOptimalPricePath`. -/
structure RCell where
  price : ℚ
  resistance : ℚ
  gradientUp : ℚ
  gradientDown : ℚ
deriving Inhabited, DecidableEq

/-- A momentum vector produced by `calculateOpticalMomentum`.  The JS objects
for the first and last point carry no `force` property; the field defaults to
`0` there (it is never read back by the source). -/
structure MomentumVector where
  x : ℚ
  y : ℚ
  dx : ℚ
  dy : ℚ
  magnitude : ℚ
  direction : ℚ
  force : ℚ
deriving Inhabited, DecidableEq

/-- `findClosestPriceIndex` from `js/utils.js`: linear scan keeping the first
index of minimal absolute difference.  On an empty grid the JS loop body
never runs and the function returns `0`. -/
def findClosestPriceIndex (priceLevels : List ℚ) (targetPrice : ℚ) : ℕ :=
  match priceLevels with
  | [] => 0
  | p0 :: rest =>
    (rest.enum.foldl
      (fun (acc : ℕ × ℚ) (ip : ℕ × ℚ) =>
        let difference := |ip.2 - targetPrice|
        if difference < acc.2 then (ip.1 + 1, difference) else acc)
      (0, |p0 - targetPrice|)).1

/-- `Math.min(...priceLevels)` on a nonempty list (the empty case, where JS
returns positive infinity, is never reached under the data-model invariant
of a nonempty price grid). -/
def jsMin (l : List ℚ) : ℚ :=
  match l with
  | [] => 0
  | x :: xs => xs.foldl min x

/-- `Math.max(...priceLevels)` on a nonempty list (see `jsMin`). -/
def jsMax (l : List ℚ) : ℚ :=
  match l with
  | [] => 0
  | x :: xs => xs.foldl max x

/-- `Math.max(...volumes.map(v => Math.abs(v)))`.  Folding from `0` agrees
with the JS maximum on every path the program takes: all mapped values are
nonnegative, and for the empty row both the JS value (negative infinity) and
this value fail the `maxVolume > 0` test that guards every use. -/
def jsMaxAbs (l : List ℚ) : ℚ :=
  l.foldl (fun m v => max m |v|) 0

/-- `calculateVolatility` from `unnamed/part_003`: standard deviation of the
absolute percentage changes of the closes, clamped to `[0.01, 0.5]`, with
default `0.05` when there are fewer than two closes or no usable change. -/
def calculateVolatility (M : JsMath) (priceHistory : List ℚ) : ℚ :=
  if priceHistory.length < 2 then 0.05
  else
    let changes :=
      (List.range (priceHistory.length - 1)).filterMap (fun i =>
        let prev := priceHistory.getD i 0
        if prev ≠ 0 then
          some |(priceHistory.getD (i + 1) 0 - prev) / prev|
        else none)
    if changes.length = 0 then 0.05
    else
      let mean := changes.sum / (changes.length : ℚ)
      let variance := (changes.map (fun v => (v - mean) ^ 2)).sum / (changes.length : ℚ)
      let stdDev := M.sqrt variance
      max 0.01 (min 0.5 stdDev)

/-- `calculateRefractiveIndices` from `unnamed/part_003`: per-timestamp
normalisation of absolute volume followed by `1 + exp(-5 * normalized) * 2`.
The unused `epsilon` constant of the source is omitted. -/
def calculateRefractiveIndices (M : JsMath) (hm : HeatmapData) : List (List ℚ) :=
  hm.heatmap.map (fun volumes =>
    let maxVolume := jsMaxAbs volumes
    (List.range hm.priceLevels.length).map (fun j =>
      let normalizedVolume := if 0 < maxVolume then |volumes.getD j 0| / maxVolume else 0
      1 + M.exp (-5 * normalizedVolume) * 2))

/-- Access `refractiveIndices[i][j]` (in-range everywhere the source reads
it). -/
def riAt (ri : List (List ℚ)) (i j : ℕ) : ℚ :=
  (ri.getD i []).getD j 0

/-- Clamp a prospective entry index into the grid bounds, as in
`Math.max(0, Math.min(priceLevels.length - 1, idx))`. -/
def clampIndex (P : ℕ) (idx : ℤ) : ℕ :=
  (max 0 (min ((P : ℤ) - 1) idx)).toNat

/-- The evenly spaced initial entry points of `determineEntryPoints`
(`unnamed/part_003`, first loop).  The JS divisor `pathCount - 1 || 1`
replaces a zero divisor by one. -/
def initialEntryPoints (priceLevels : List ℚ) (pathCount : ℕ) : List EntryPoint :=
  let minPrice := jsMin priceLevels
  let maxPrice := jsMax priceLevels
  let priceRange := maxPrice - minPrice
  let divisor : ℚ := if (pathCount : ℚ) - 1 = 0 then 1 else (pathCount : ℚ) - 1
  (List.range pathCount).map (fun (i : ℕ) =>
    let price := minPrice + priceRange * (i : ℚ) / divisor
    { price := price
      index := findClosestPriceIndex priceLevels price
      timeIndex := 0 })

/-- The index pairs visited by the nested repulsion loops of
`determineEntryPoints`, in source order: for each `i`, all `j` with
`i < j < n`. -/
def pairsBelow (n : ℕ) : List (ℕ × ℕ) :=
  (List.range n).flatMap (fun i =>
    ((List.range n).map (fun j => (i, j))).filter (fun p => p.1 < p.2))

/-- `minSeparation = Math.max(1, Math.floor(priceLevels.length / (pathCount * 1.5)))`. -/
def minSeparationOf (P pathCount : ℕ) : ℕ :=
  max 1 (Int.toNat ⌊(P : ℚ) / ((pathCount : ℚ) * 1.5)⌋)

/-- One pair check of the repulsion pass: if the two entry indices are closer
than `minSeparation`, push them apart by `Math.ceil(force * minSeparation * 0.5)`
grid steps (clamped to the grid) and refresh their prices, recording that an
adjustment happened. -/
def relaxStep (priceLevels : List ℚ) (minSeparation : ℕ)
    (acc : List EntryPoint × Bool) (ij : ℕ × ℕ) : List EntryPoint × Bool :=
  let eps := acc.1
  let epi := eps.getD ij.1 default
  let epj := eps.getD ij.2 default
  let indexDiff := ((epi.index : ℤ) - (epj.index : ℤ)).natAbs
  if indexDiff < minSeparation then
    let force : ℚ := ((minSeparation : ℚ) - (indexDiff : ℚ)) / (minSeparation : ℚ)
    let forceDirection : ℤ := if epi.index < epj.index then -1 else 1
    let adjustment : ℤ := ⌈force * (minSeparation : ℚ) * 0.5⌉
    let newI := clampIndex priceLevels.length ((epi.index : ℤ) + forceDirection * adjustment)
    let newJ := clampIndex priceLevels.length ((epj.index : ℤ) - forceDirection * adjustment)
    let eps := eps.set ij.1 { epi with index := newI, price := priceLevels.getD newI 0 }
    let eps := eps.set ij.2 { epj with index := newJ, price := priceLevels.getD newJ 0 }
    (eps, true)
  else
    acc

/-- One full pass of the repulsion loop over all pairs, returning the updated
points and the `hasAdjusted` flag of that pass. -/
def relaxPass (priceLevels : List ℚ) (minSeparation : ℕ)
    (eps : List EntryPoint) : List EntryPoint × Bool :=
  (pairsBelow eps.length).foldl (relaxStep priceLevels minSeparation) (eps, false)

/-- The bounded relaxation loop (`while (hasAdjusted && iteration < maxIterations)`
with `maxIterations = 20`): run passes while the previous pass adjusted
something and fuel remains.  Returns the final points and the number of
passes executed. -/
def relaxLoop (priceLevels : List ℚ) (minSeparation : ℕ) :
    ℕ → List EntryPoint → List EntryPoint × ℕ
  | 0, eps => (eps, 0)
  | fuel + 1, eps =>
    let pass := relaxPass priceLevels minSeparation eps
    if pass.2 then
      let rest := relaxLoop priceLevels minSeparation fuel pass.1
      (rest.1, rest.2 + 1)
    else
      (pass.1, 1)

/-- `determineEntryPoints` from `unnamed/part_003`: evenly spaced points,
repulsion relaxation (cap 20), then the market-price guarantee that may
overwrite the middle entry point. -/
def determineEntryPoints (hm : HeatmapData) (candlestickData : List Candle)
    (pathCount : ℕ) : List EntryPoint :=
  let priceLevels := hm.priceLevels
  let minSeparation := minSeparationOf priceLevels.length pathCount
  let entryPoints := initialEntryPoints priceLevels pathCount
  let relaxed := (relaxLoop priceLevels minSeparation 20 entryPoints).1
  let firstPrice := (candlestickData.headD default).close
  let firstPriceIndex := findClosestPriceIndex priceLevels firstPrice
  let hasMarketPrice := relaxed.any (fun ep =>
    ((ep.index : ℤ) - (firstPriceIndex : ℤ)).natAbs ≤ minSeparation)
  if hasMarketPrice then relaxed
  else
    relaxed.set (relaxed.length / 2)
      { price := firstPrice, index := firstPriceIndex, timeIndex := 0 }

/-- All pairwise entry-index distances are at least `minSeparation`. -/
def allSeparated (minSeparation : ℕ) (eps : List EntryPoint) : Prop :=
  ∀ i j : ℕ, i < j → j < eps.length →
    minSeparation ≤ (((eps.getD i default).index : ℤ) - ((eps.getD j default).index : ℤ)).natAbs

/-- The sum over pairs of `max(0, minSeparation - distance)`, the quantity
claim C2 asserts to be non-increasing across relaxation iterations. -/
def violationSum (minSeparation : ℕ) (eps : List EntryPoint) : ℕ :=
  ((pairsBelow eps.length).map (fun ij =>
    minSeparation - (((eps.getD ij.1 default).index : ℤ) - ((eps.getD ij.2 default).index : ℤ)).natAbs)).sum

/-- The candidate price indices searched at one forward step of
`findOptimalPricePath`: the grid indices from
`Math.max(0, currentPriceIndex - searchRadius)` to
`Math.min(priceLevels.length - 1, currentPriceIndex + searchRadius)`
inclusive (empty when the upper bound is below the lower one). -/
def candidateIndices (P cur searchRadius : ℕ) : List ℕ :=
  let lowerBound := cur - searchRadius
  let upperBound : ℤ := min ((P : ℤ) - 1) (((cur + searchRadius : ℕ) : ℤ))
  List.range' lowerBound (upperBound + 1 - (lowerBound : ℤ)).toNat

/-- The inter-path repulsion term of `findOptimalPricePath`: for every other
already-computed path with a point at this timestamp, add
`(d0 - d) / d0 * 0.4` when the candidate is closer than the repulsion
distance `d0` to that path's index. -/
def pathRepulsion (priceLevels : List ℚ) (allPaths : List (List PathPoint))
    (pathIndex : ℤ) (tsMs : ℚ) (j : ℕ) : ℚ :=
  if 0 < allPaths.length ∧ 0 ≤ pathIndex then
    let pathRepulsionDistance := max 1 (priceLevels.length / (allPaths.length * 3))
    allPaths.enum.foldl
      (fun acc pPath =>
        if (pPath.1 : ℤ) = pathIndex then acc
        else
          match pPath.2.filter (fun pt => pt.time = tsMs) with
          | [] => acc
          | otherPoint :: _ =>
            let otherPriceIndex := findClosestPriceIndex priceLevels otherPoint.price
            let distance := ((j : ℤ) - (otherPriceIndex : ℤ)).natAbs
            if distance < pathRepulsionDistance then
              acc + ((pathRepulsionDistance : ℚ) - (distance : ℚ)) /
                (pathRepulsionDistance : ℚ) * 0.4
            else acc)
      0
  else 0

/-- The total cost (`totalResistance`) of one candidate index in the forward
search of `findOptimalPricePath`: optical resistance, bend penalty, market
attraction, gradient preference and inter-path repulsion.  Note the source
applies `gradientDown * 0.1` (not `0`) when `priceDelta = 0`. -/
def pathCost (ri : List (List ℚ)) (rmap : List (List RCell)) (priceLevels : List ℚ)
    (allPaths : List (List PathPoint)) (pathIndex : ℤ) (tsMs : ℚ)
    (i cur : ℕ) (actualPriceIndex : ℤ) (j : ℕ) : ℚ :=
  let opticalResistance := riAt ri i j
  let priceDelta : ℤ := (j : ℤ) - (cur : ℤ)
  let bendPenalty := (priceDelta.natAbs : ℚ) * 0.05
  let actualPriceAttraction :=
    if 0 ≤ actualPriceIndex then
      0.3 * (((j : ℤ) - actualPriceIndex).natAbs : ℚ) / (priceLevels.length : ℚ)
    else 0
  let cell := (rmap.getD i []).getD j default
  let gradientEffect :=
    if 0 < priceDelta then cell.gradientUp * 0.1 else cell.gradientDown * 0.1
  let repulsionEffect := pathRepulsion priceLevels allPaths pathIndex tsMs j
  opticalResistance + bendPenalty + actualPriceAttraction + gradientEffect + repulsionEffect

/-- The body of the candidate scan of `findOptimalPricePath`: skip a
candidate whose refractive index exceeds 3, otherwise keep the first strict
minimiser of the cost seen so far.  The JS accumulator starts at
`minResistance = Infinity`, modelled as `none`. -/
def scanStep (f c : ℕ → ℚ) (acc : Option ℚ × ℕ) (j : ℕ) : Option ℚ × ℕ :=
  if 3 < f j then acc
  else
    match acc.1 with
    | none => (some (c j), j)
    | some m => if c j < m then (some (c j), j) else acc

/-- One forward step of `findOptimalPricePath`: scan the candidate window in
ascending order with `scanStep`; if every candidate is skipped the current
index is returned unchanged (`optimalNextIndex` keeps its initial value). -/
def chooseNext (ri : List (List ℚ)) (rmap : List (List RCell)) (priceLevels : List ℚ)
    (allPaths : List (List PathPoint)) (pathIndex : ℤ) (tsMs : ℚ)
    (i cur : ℕ) (actualPriceIndex : ℤ) (searchRadius : ℕ) : ℕ :=
  ((candidateIndices priceLevels.length cur searchRadius).foldl
    (scanStep (fun j => riAt ri i j)
      (fun j => pathCost ri rmap priceLevels allPaths pathIndex tsMs i cur actualPriceIndex j))
    ((none : Option ℚ), cur)).2

/-- The gradient pass of `findOptimalPricePath` producing the resistance map
(forward and backward first differences along the price axis, `0` at the
grid boundary). -/
def buildResistanceMap (ri : List (List ℚ)) (priceLevels : List ℚ) : List (List RCell) :=
  (List.range ri.length).map (fun i =>
    (List.range priceLevels.length).map (fun j =>
      { price := priceLevels.getD j 0
        resistance := riAt ri i j
        gradientUp := if j < priceLevels.length - 1 then riAt ri i (j + 1) - riAt ri i j else 0
        gradientDown := if 0 < j then riAt ri i j - riAt ri i (j - 1) else 0 }))

/-- The body of the per-timestamp loop of `findOptimalPricePath`: compute
the market-price index and the adaptive search radius, choose the next
index, and append the corresponding path point. -/
def pathStep (M : JsMath) (hm : HeatmapData) (ri : List (List ℚ))
    (candlestickData : List Candle) (allPaths : List (List PathPoint)) (pathIndex : ℤ)
    (acc : List PathPoint × ℕ) (i : ℕ) : List PathPoint × ℕ :=
  let priceLevels := hm.priceLevels
  let baseSearchRadius :=
    max 2 (Int.toNat ⌊(priceLevels.length : ℚ) *
      calculateVolatility M (candlestickData.map (fun c => c.close)) * 0.2⌋)
  let cur := acc.2
  let actualPriceIndex : ℤ :=
    if i < candlestickData.length then
      (findClosestPriceIndex priceLevels ((candlestickData.getD i default).close) : ℤ)
    else -1
  let searchRadius := baseSearchRadius +
    (if 0 ≤ actualPriceIndex then (actualPriceIndex - (cur : ℤ)).natAbs else 0)
  let tsMs := hm.timestamps.getD i 0 * 1000
  let nxt := chooseNext ri (buildResistanceMap ri priceLevels) priceLevels allPaths pathIndex
    tsMs i cur actualPriceIndex searchRadius
  (acc.1 ++ [{ time := tsMs, price := priceLevels.getD nxt 0, resistance := riAt ri i nxt }],
   nxt)

/-- `findOptimalPricePath` from `unnamed/part_003`: guard for at least two
timestamps and two candlesticks, one initial point at the entry, then one
greedy `pathStep` per remaining timestamp.  (The volatility, base search
radius and resistance map are loop constants in the source; `pathStep`
recomputes them, which yields the same values at every step.) -/
def findOptimalPricePath (M : JsMath) (hm : HeatmapData) (ri : List (List ℚ))
    (candlestickData : List Candle) (entryPoint : Option EntryPoint)
    (allPaths : List (List PathPoint)) (pathIndex : ℤ) :
    List PathPoint × List (List RCell) :=
  let priceLevels := hm.priceLevels
  let timestamps := hm.timestamps
  if timestamps.length < 2 ∨ candlestickData.length < 2 then ([], [])
  else
    let startTimeIndex := match entryPoint with | some e => e.timeIndex | none => 0
    let startIndex :=
      match entryPoint with
      | some e => e.index
      | none => findClosestPriceIndex priceLevels ((candlestickData.headD default).close)
    let firstPoint : PathPoint :=
      { time := timestamps.getD startTimeIndex 0 * 1000
        price := priceLevels.getD startIndex 0
        resistance := riAt ri startTimeIndex startIndex }
    let result :=
      (List.range' (startTimeIndex + 1) (timestamps.length - (startTimeIndex + 1))).foldl
        (pathStep M hm ri candlestickData allPaths pathIndex) ([firstPoint], startIndex)
    (result.1, buildResistanceMap ri priceLevels)

/-- The body of the interior loop of `calculateOpticalMomentum`: finite
differences for velocity, acceleration and force, the visualisation vector,
and the blended confidence score `0.3 + 0.7 * (...)`. -/
def momentumStep (M : JsMath) (path : List PathPoint)
    (acc : List MomentumVector × List ℚ) (i : ℕ) : List MomentumVector × List ℚ :=
  let p := fun k => path.getD k default
  let dt1 := ((p i).time - (p (i - 1)).time) / 3600000
  let dt2 := ((p (i + 1)).time - (p i).time) / 3600000
  let dp1 := (p i).price - (p (i - 1)).price
  let dp2 := (p (i + 1)).price - (p i).price
  let v2 := dp2 / ((if dt2 = 0 then 0.001 else dt2) * (p i).resistance)
  let v1 := dp1 / ((if dt1 = 0 then 0.001 else dt1) * (p (i - 1)).resistance)
  let acceleration := (v2 - v1) / (dt1 + dt2)
  let force := acceleration * (p i).resistance
  let dx : ℚ := 1
  let dy := v2 * 20
  let magnitude := M.sqrt (dx * dx + dy * dy)
  let direction := M.atan2 dy dx
  let forceConsistency :=
    if 1 < i then |M.cos ((acc.1.getD (i - 1) default).direction - direction)| else 0.5
  let speedFactor := 1 / (p i).resistance
  let gradientStability := M.exp (-|force| * 2)
  let confidence := 0.3 + 0.7 *
    (forceConsistency * 0.4 + speedFactor * 0.3 + gradientStability * 0.3)
  (acc.1 ++ [{ x := (p i).time, y := (p i).price, dx := dx, dy := dy
               magnitude := magnitude, direction := direction, force := force }],
   acc.2 ++ [confidence])

/-- `calculateOpticalMomentum` from `unnamed/part_003`, as a function of the
finished path (the other two source parameters are never read).  Seeds the
zero vector, runs `momentumStep` for `i = 1 .. path.length - 2`, then
appends the forward-projected final point.  Empty when the path has fewer
than three points. -/
def calculateOpticalMomentum (M : JsMath) (path : List PathPoint) :
    List MomentumVector × List ℚ :=
  if path.length < 3 then ([], [])
  else
    let first : MomentumVector :=
      { x := (path.getD 0 default).time, y := (path.getD 0 default).price, dx := 0, dy := 0
        magnitude := 0, direction := 0, force := 0 }
    let res := (List.range' 1 (path.length - 2)).foldl (momentumStep M path) ([first], [])
    if 1 < res.1.length then
      let lastVector := res.1.getD (res.1.length - 1) default
      let lastConf := res.2.getD (res.2.length - 1) 0
      (res.1 ++ [{ x := (path.getD (path.length - 1) default).time
                   y := (path.getD (path.length - 1) default).price
                   dx := lastVector.dx, dy := lastVector.dy
                   magnitude := lastVector.magnitude, direction := lastVector.direction
                   force := 0 }],
       res.2 ++ [if lastConf = 0 then 0.5 else lastConf])
    else res

/-- A JS number that may be IEEE `NaN`.  Only the operations actually used by
the OBM stage-1 computation are provided; `NaN` is absorbing for all of them,
as in IEEE arithmetic.  The only zero divisor the program can produce here is
`0 / 0` (the distance weight with a one-level grid), which is `NaN`; the
division is modelled accordingly. -/
inductive JNum where
  | nan : JNum
  | num : ℚ → JNum
deriving Inhabited, DecidableEq

/-- `NaN`-propagating addition. -/
def JNum.add : JNum → JNum → JNum
  | JNum.num a, JNum.num b => JNum.num (a + b)
  | _, _ => JNum.nan

/-- `NaN`-propagating multiplication (the source never multiplies an infinity
by zero here, see `rowPressures`). -/
def JNum.mul : JNum → JNum → JNum
  | JNum.num a, JNum.num b => JNum.num (a * b)
  | _, _ => JNum.nan

/-- `NaN`-propagating division; `x / 0` is `NaN` (reached only as `0 / 0`). -/
def JNum.div : JNum → JNum → JNum
  | JNum.num a, JNum.num b => if b = 0 then JNum.nan else JNum.num (a / b)
  | _, _ => JNum.nan

/-- Stage 1 of `calculateOBM` for one heatmap row: distance-weighted buy and
sell pressure, split at `middleIndex = Math.floor(P / 2)`.  With `P = 1` the
distance weight is `0 / 0 = NaN` and the accumulated pressure becomes
`NaN`, exactly as in the source. -/
def rowPressures (P : ℕ) (volumes : List ℚ) : JNum × JNum :=
  let middleIndex := P / 2
  (List.range P).foldl
    (fun acc j =>
      let volume := |volumes.getD j 0|
      let distanceFactor :=
        JNum.div (JNum.num |((j : ℚ)) - (middleIndex : ℚ)|) (JNum.num (middleIndex : ℚ))
      let weightedVolume := JNum.mul (JNum.num volume) (JNum.add (JNum.num 1) distanceFactor)
      if j < middleIndex then (JNum.add acc.1 weightedVolume, acc.2)
      else (acc.1, JNum.add acc.2 weightedVolume))
    (JNum.num 0, JNum.num 0)

/-- The order-book imbalance of one row: `(buy - sell) / (buy + sell)` when
the total pressure is a number greater than zero, else `0`.  The JS
comparison `NaN > 0` is false, so a `NaN` total also yields `0`; the result
is therefore always a genuine number and the rest of the pipeline stays in
`ℚ`. -/
def rowImbalance (P : ℕ) (volumes : List ℚ) : ℚ :=
  match rowPressures P volumes with
  | (JNum.num b, JNum.num s) => if 0 < b + s then (b - s) / (b + s) else 0
  | _ => 0

/-- `calculateLinearRegressionSlope` from `script.js`: ordinary
least-squares slope of value against position. -/
def calculateLinearRegressionSlope (values : List ℚ) : ℚ :=
  let n := values.length
  if n ≤ 1 then 0
  else
    let sums := values.enum.foldl
      (fun (acc : ℚ × ℚ × ℚ × ℚ) iv =>
        (acc.1 + (iv.1 : ℚ), acc.2.1 + iv.2, acc.2.2.1 + (iv.1 : ℚ) * iv.2,
         acc.2.2.2 + (iv.1 : ℚ) * (iv.1 : ℚ)))
      (0, 0, 0, 0)
    ((n : ℚ) * sums.2.2.1 - sums.1 * sums.2.1) / ((n : ℚ) * sums.2.2.2 - sums.1 * sums.1)

/-- `exponentialMovingAverage` from `script.js`, seeded with the first
value. -/
def emaAux (alpha prev : ℚ) : List ℚ → List ℚ
  | [] => []
  | x :: xs =>
    let e := x * alpha + prev * (1 - alpha)
    e :: emaAux alpha e xs

/-- `exponentialMovingAverage` from `script.js` (also the inline EMA loop of
stage 4, which is the same recurrence). -/
def exponentialMovingAverage (data : List ℚ) (alpha : ℚ) : List ℚ :=
  match data with
  | [] => []
  | x :: xs => x :: emaAux alpha x xs

/-- `findLowestInRange` from `script.js`: index of the smallest value in
`[start, stop]`, first occurrence wins. -/
def findLowestInRange (data : List ℚ) (start stop : ℕ) : ℕ :=
  (List.range' (start + 1) (stop - start)).foldl
    (fun lowest i => if data.getD i 0 < data.getD lowest 0 then i else lowest) start

/-- `findHighestInRange` from `script.js`. -/
def findHighestInRange (data : List ℚ) (start stop : ℕ) : ℕ :=
  (List.range' (start + 1) (stop - start)).foldl
    (fun highest i => if data.getD highest 0 < data.getD i 0 then i else highest) start

/-- `findDivergences` from `script.js` (the `price` argument receives the
second smoothing of the OBM series at the call site).  Returns the bullish
and bearish divergence indices. -/
def findDivergences (momentum price : List ℚ) : List ℕ × List ℕ :=
  (List.range' 10 (momentum.length - 1 - 10)).foldl
    (fun acc i =>
      let isPriceLowerLow := findLowestInRange price (i - 10) i = i
      let isMomentumHigherLow :=
        momentum.getD (findLowestInRange momentum (i - 10) i) 0 < momentum.getD i 0
      let acc1 :=
        if momentum.getD i 0 < 0 ∧ isPriceLowerLow ∧ isMomentumHigherLow then
          (acc.1 ++ [i], acc.2)
        else acc
      let isPriceHigherHigh := findHighestInRange price (i - 10) i = i
      let isMomentumLowerHigh :=
        momentum.getD i 0 < momentum.getD (findHighestInRange momentum (i - 10) i) 0
      if 0 < momentum.getD i 0 ∧ isPriceHigherHigh ∧ isMomentumLowerHigh then
        (acc1.1, acc1.2 ++ [i])
      else acc1)
    ([], [])

/-- The mutable state of the signal-emission loop of `calculateOBM`. -/
structure SigState where
  inLong : Bool
  inShort : Bool
  lastSignalIndex : ℤ
  signals : List String
  signalStrengths : List ℤ
deriving Inhabited, DecidableEq

/-- One iteration of the signal loop of `calculateOBM` at oscillator index
`i`: BUY when a zero-line cross, bullish reversal or bullish divergence fires
while not in a long position and out of cooldown; SELL symmetrically;
otherwise NONE.  Strength formulas as in the source. -/
def signalStep (smoothedOBM trendStrength : List ℚ) (divergences : List ℕ × List ℕ)
    (st : SigState) (i : ℕ) : SigState :=
  let obm := smoothedOBM.getD i 0
  let obmPrev := smoothedOBM.getD (i - 1) 0
  let obmPrev2 := smoothedOBM.getD (i - 2) 0
  let trend := trendStrength.getD i 0
  let crossedAboveZero := obmPrev ≤ 0 ∧ 0 < obm ∧ 0 < trend
  let crossedBelowZero := 0 ≤ obmPrev ∧ obm < 0 ∧ trend < 0
  let bullishReversal := 0 < obm ∧ obmPrev < obmPrev2 ∧ obmPrev < obm ∧ 0 < trend
  let bearishReversal := obm < 0 ∧ obmPrev2 < obmPrev ∧ obm < obmPrev ∧ trend < 0
  let hasBullishDivergence := i ∈ divergences.1
  let hasBearishDivergence := i ∈ divergences.2
  let trendFactor := min 1 (|trend| * 10)
  let momentumFactor := min 1 (|obm| * 2)
  if (crossedAboveZero ∨ bullishReversal ∨ hasBullishDivergence) ∧
      st.inLong = false ∧ 5 < (i : ℤ) - st.lastSignalIndex then
    let signalStrength :=
      if hasBullishDivergence then min 100 (round ((1 + trendFactor + momentumFactor) * 33))
      else if bullishReversal then min 100 (round ((0.8 + trendFactor + momentumFactor) * 25))
      else min 100 (round ((0.6 + trendFactor + momentumFactor) * 20))
    { inLong := true, inShort := false, lastSignalIndex := (i : ℤ)
      signals := st.signals ++ ["BUY"], signalStrengths := st.signalStrengths ++ [signalStrength] }
  else if (crossedBelowZero ∨ bearishReversal ∨ hasBearishDivergence) ∧
      st.inShort = false ∧ 5 < (i : ℤ) - st.lastSignalIndex then
    let signalStrength :=
      if hasBearishDivergence then min 100 (round ((1 + trendFactor + momentumFactor) * 33))
      else if bearishReversal then min 100 (round ((0.8 + trendFactor + momentumFactor) * 25))
      else min 100 (round ((0.6 + trendFactor + momentumFactor) * 20))
    { inLong := false, inShort := true, lastSignalIndex := (i : ℤ)
      signals := st.signals ++ ["SELL"], signalStrengths := st.signalStrengths ++ [signalStrength] }
  else
    { st with signals := st.signals ++ ["NONE"], signalStrengths := st.signalStrengths ++ [0] }

/-- The result record of `calculateOBM`. -/
structure OBMResult where
  timestamps : List ℚ
  obmValues : List ℚ
  trendStrength : List ℚ
  forecastValues : List (Option ℚ)
  signals : List String
  signalStrengths : List ℤ
deriving Inhabited, DecidableEq

/-- The raw imbalance of row `i` of the heatmap (stage 1 of
`calculateOBM`). -/
def obmImbalance (hm : HeatmapData) (i : ℕ) : ℚ :=
  rowImbalance hm.priceLevels.length (hm.heatmap.getD i [])

/-- Stage 2 of `calculateOBM`: rate of change of the imbalance per minute,
`0` for the first computed row (`i = 1`). -/
def obmImbalanceChange (hm : HeatmapData) (i : ℕ) : ℚ :=
  if 1 < i then
    let deltaTime := max 1 ((hm.timestamps.getD i 0 - hm.timestamps.getD (i - 1) 0) / 60)
    (obmImbalance hm i - obmImbalance hm (i - 1)) / deltaTime
  else 0

/-- Stage 3 of `calculateOBM`: the raw OBM value of row `i`. -/
def obmRaw (hm : HeatmapData) (i : ℕ) : ℚ :=
  obmImbalance hm i * 0.3 + obmImbalanceChange hm i * 0.7

/-- The raw OBM series of stage 3, one value per row `1 .. T-1`. -/
def obmRawValues (hm : HeatmapData) : List ℚ :=
  (List.range' 1 (hm.heatmap.length - 1)).map (obmRaw hm)

/-- Stage 4: EMA smoothing of the raw OBM series with `alpha = 0.2`. -/
def obmEmaValues (hm : HeatmapData) : List ℚ :=
  exponentialMovingAverage (obmRawValues hm) 0.2

/-- The regression window size `min(10, floor(n / 3))` of stage 5. -/
def obmWindowSize (hm : HeatmapData) : ℕ :=
  min 10 ((obmRawValues hm).length / 3)

/-- Stage 5: rolling linear-regression trend of the raw OBM series. -/
def obmTrendValues (hm : HeatmapData) : List ℚ :=
  (List.range (obmRawValues hm).length).map (fun i =>
    if i < obmWindowSize hm then 0
    else calculateLinearRegressionSlope
      (((obmRawValues hm).drop (i - obmWindowSize hm)).take (obmWindowSize hm)))

/-- Stage 6: three-lag exponentially weighted forecast, `none` (JS `null`)
for the first three positions. -/
def obmForecastValues (M : JsMath) (hm : HeatmapData) : List (Option ℚ) :=
  (List.range (obmRawValues hm).length).map (fun i =>
    if i < 3 then none
    else
      let pairs := [1, 2, 3].map (fun j =>
        ((obmEmaValues hm).getD (i - j) 0, M.exp (-0.5 * (j : ℚ))))
      let forecast := (pairs.map (fun pr => pr.1 * pr.2)).sum
      let weightSum := (pairs.map (fun pr => pr.2)).sum
      some (forecast / weightSum + (obmTrendValues hm).getD i 0 * 0.5))

/-- Stage 7: the final OBM values `ema[i] + trend[i] * 0.3`. -/
def obmFinalValues (hm : HeatmapData) : List ℚ :=
  (List.range (obmEmaValues hm).length).map (fun i =>
    (obmEmaValues hm).getD i 0 + (obmTrendValues hm).getD i 0 * 0.3)

/-- Stage 8 preparation: the double smoothing of the final OBM values and
their divergences. -/
def obmSmoothed (hm : HeatmapData) : List ℚ :=
  exponentialMovingAverage (obmFinalValues hm) 0.15

/-- The second smoothing passed as the `price` argument of
`findDivergences`. -/
def obmSecondSmoothing (hm : HeatmapData) : List ℚ :=
  exponentialMovingAverage (obmSmoothed hm) 0.25

/-- The final state of the signal loop of stage 8 (run for oscillator
indices `3 .. n-1`). -/
def obmSignalState (hm : HeatmapData) : SigState :=
  (List.range' 3 ((obmFinalValues hm).length - 3)).foldl
    (signalStep (obmSmoothed hm) (obmTrendValues hm)
      (findDivergences (obmSmoothed hm) (obmSecondSmoothing hm)))
    { inLong := false, inShort := false, lastSignalIndex := -10
      signals := [], signalStrengths := [] }

/-- `calculateOBM` from `script.js`: guard `heatmap.length < 10`, raw
imbalance series over rows `1 .. T-1`, EMA smoothing, rolling regression
trend, three-lag autoregressive forecast, final OBM values, then the
stateful signal loop (which runs only when at least five OBM values
exist). -/
def calculateOBM (M : JsMath) (hm : HeatmapData) : OBMResult :=
  if hm.heatmap.length < 10 then
    { timestamps := [], obmValues := [], trendStrength := [], forecastValues := []
      signals := [], signalStrengths := [] }
  else
    let tsList := (List.range' 1 (hm.heatmap.length - 1)).map
      (fun i => hm.timestamps.getD i 0 * 1000)
    if 5 ≤ (obmFinalValues hm).length then
      { timestamps := tsList, obmValues := obmFinalValues hm
        trendStrength := obmTrendValues hm, forecastValues := obmForecastValues M hm
        signals := (obmSignalState hm).signals
        signalStrengths := (obmSignalState hm).signalStrengths }
    else
      { timestamps := tsList, obmValues := obmFinalValues hm
        trendStrength := obmTrendValues hm, forecastValues := obmForecastValues M hm
        signals := [], signalStrengths := [] }

/-- The result record of `calculatePricePrediction`.  `resistanceMap` is
`none` for the JS `null` (never assigned because no path was computed) and
`some` for an assigned array; the early-return object carries the initial
empty array, i.e. `some []`. -/
structure PredictionResult where
  timestamps : List ℚ
  actualPrice : List ℚ
  predictedPaths : List (List PathPoint)
  refractiveIndices : List (List ℚ)
  resistanceMap : Option (List (List RCell))
  momentumVectorsCollection : List (List MomentumVector)
  confidenceScoresCollection : List (List ℚ)
deriving Inhabited, DecidableEq

/-- The early-return value of `calculatePricePrediction` for empty inputs. -/
def emptyPredictionResult : PredictionResult :=
  { timestamps := [], actualPrice := [], predictedPaths := [], refractiveIndices := []
    resistanceMap := some [], momentumVectorsCollection := []
    confidenceScoresCollection := [] }

/-- `calculatePricePrediction` from `unnamed/part_003`: the orchestrator.
Builds the refractive field, the entry points, then one path per entry point
in order, each later search seeing all earlier finished paths, and finally
the momentum/confidence collections and shared series. -/
def calculatePricePrediction (M : JsMath) (hm : HeatmapData)
    (candlestickData : List Candle) (pathCount : ℕ) : PredictionResult :=
  if hm.heatmap.length = 0 ∨ candlestickData.length = 0 then emptyPredictionResult
  else
    let ri := calculateRefractiveIndices M hm
    let entryPoints := determineEntryPoints hm candlestickData pathCount
    let st := entryPoints.enum.foldl
      (fun (acc : List (List PathPoint) × Option (List (List RCell)) ×
                 List (List MomentumVector) × List (List ℚ)) iep =>
        let pathResult := findOptimalPricePath M hm ri candlestickData (some iep.2)
          acc.1 (iep.1 : ℤ)
        let prediction := calculateOpticalMomentum M pathResult.1
        (acc.1 ++ [pathResult.1], some pathResult.2,
         acc.2.2.1 ++ [prediction.1], acc.2.2.2 ++ [prediction.2]))
      ([], none, [], [])
    { timestamps := hm.timestamps.map (fun ts => ts * 1000)
      actualPrice := candlestickData.map (fun c => c.close)
      predictedPaths := st.1
      refractiveIndices := ri
      resistanceMap := st.2.1
      momentumVectorsCollection := st.2.2.1
      confidenceScoresCollection := st.2.2.2 }

/-! ## Generic lemmas about the list combinators used by the embedding -/

theorem getD_lt {α : Type} (l : List α) (n : ℕ) (d : α) (h : n < l.length) :
    l.getD n d = l[n] := by
  simp [List.getD_eq_getElem?_getD, List.getElem?_eq_getElem h]

theorem foldl_max_init_le (l : List ℚ) (a : ℚ) :
    a ≤ l.foldl (fun m v => max m |v|) a := by
  induction l generalizing a with
  | nil => simp
  | cons x xs ih =>
    simp only [List.foldl_cons]
    exact le_trans (le_max_left _ _) (ih _)

theorem le_foldl_max_of_mem {v : ℚ} {l : List ℚ} (h : v ∈ l) (a : ℚ) :
    |v| ≤ l.foldl (fun m v => max m |v|) a := by
  induction l generalizing a with
  | nil => cases h
  | cons x xs ih =>
    simp only [List.foldl_cons]
    rcases List.mem_cons.1 h with hv | hv
    · subst hv
      exact le_trans (le_max_right _ _) (foldl_max_init_le xs _)
    · exact ih hv _

theorem foldl_max_le {l : List ℚ} {B a : ℚ} (ha : a ≤ B) (h : ∀ v ∈ l, |v| ≤ B) :
    l.foldl (fun m v => max m |v|) a ≤ B := by
  induction l generalizing a with
  | nil => simpa
  | cons x xs ih =>
    simp only [List.foldl_cons]
    exact ih (max_le ha (h x (List.mem_cons_self x xs)))
      (fun v hv => h v (List.mem_cons_of_mem _ hv))

theorem foldl_snoc_length {σ τ : Type} (st : List σ × τ → ℕ → List σ × τ)
    (hst : ∀ acc i, ((st acc i).1).length = acc.1.length + 1) :
    ∀ (l : List ℕ) (acc : List σ × τ),
      ((l.foldl st acc).1).length = acc.1.length + l.length := by
  intro l
  induction l with
  | nil => simp
  | cons x xs ih =>
    intro acc
    rw [List.foldl_cons, ih, hst]
    simp
    omega

/-! ## C8: empty inputs -/

/-- Claim C8 (confirmed): for an empty heatmap or an empty candlestick
series the orchestrator `calculatePricePrediction` returns the all-empty
result object, and for a heatmap with fewer than 10 rows `calculateOBM`
returns all-empty sequences.  Both guards run before any data access, so the
source cannot throw on these inputs. -/
theorem C8_empty_inputs (M : JsMath) (hm hm2 : HeatmapData)
    (candlestickData : List Candle) (pathCount : ℕ) :
    (hm.heatmap = [] ∨ candlestickData = [] →
      calculatePricePrediction M hm candlestickData pathCount = emptyPredictionResult) ∧
    (hm2.heatmap.length < 10 →
      calculateOBM M hm2 =
        { timestamps := [], obmValues := [], trendStrength := [], forecastValues := []
          signals := [], signalStrengths := [] }) := by
  constructor
  · intro h
    have hg : hm.heatmap.length = 0 ∨ candlestickData.length = 0 := by
      rcases h with h | h <;> simp [h]
    rw [calculatePricePrediction, if_pos hg]
  · intro h
    rw [calculateOBM, if_pos h]

/-- An empty heatmap used to instantiate the boundary claims. -/
def emptyHm : HeatmapData := { timestamps := [], priceLevels := [], heatmap := [] }

/-- Witness for C8 at concrete empty inputs. -/
theorem C8_witness :
    calculatePricePrediction M0 emptyHm [] 3 = emptyPredictionResult ∧
    calculateOBM M0 emptyHm =
      { timestamps := [], obmValues := [], trendStrength := [], forecastValues := []
        signals := [], signalStrengths := [] } :=
  ⟨(C8_empty_inputs M0 emptyHm emptyHm [] 3).1 (Or.inr rfl),
   (C8_empty_inputs M0 emptyHm emptyHm [] 3).2 (by decide)⟩

/-! ## C1: refractive field bounds and the maximal-volume cell -/

/-- A one-row heatmap whose globally maximal absolute volume (5) sits at
price index 1. -/
def hmC1ex : HeatmapData :=
  { timestamps := [0], priceLevels := [100, 101], heatmap := [[0, 5]] }

/-- Counterexample for claim C1: in `hmC1ex` the globally maximal
single-level absolute volume is at row 0, index 1, but the field cell there
is `1 + exp(-5) * 2`, not exactly `1` (with the evaluation model `M0` the
cell is `4/3`; with real `exp` it is `1 + 2 e^(-5) ≈ 1.0135`; it equals `1`
for no admissible exponential, see the amended theorem). -/
theorem C1_counterexample :
    (∀ row ∈ hmC1ex.heatmap, ∀ v ∈ row, |v| ≤ |(hmC1ex.heatmap.getD 0 []).getD 1 0|) ∧
    riAt (calculateRefractiveIndices M0 hmC1ex) 0 1 = 4 / 3 ∧ (4 / 3 : ℚ) ≠ 1 := by
  refine ⟨by decide, ?_, by norm_num⟩
  norm_num [riAt, calculateRefractiveIndices, hmC1ex, jsMaxAbs, M0, List.range_succ]

/-- Claim C1, amended: every value of the refractive field lies in `[1, 3]`
(as claimed), but the cell at the globally maximal single-level absolute
volume equals `1 + exp(-5) * 2`, which differs from `1` because the
exponential is strictly positive. -/
theorem C1_field_bounds_and_max_cell (M : JsMath) (hE : ExpLike M.exp)
    (hm : HeatmapData) (tStar jStar : ℕ)
    (hT : tStar < hm.heatmap.length)
    (hrows : ∀ row ∈ hm.heatmap, row.length = hm.priceLevels.length)
    (hJ : jStar < hm.priceLevels.length)
    (hmax : ∀ row ∈ hm.heatmap, ∀ v ∈ row, |v| ≤ |(hm.heatmap.getD tStar []).getD jStar 0|)
    (hpos : 0 < |(hm.heatmap.getD tStar []).getD jStar 0|) :
    (∀ row ∈ calculateRefractiveIndices M hm, ∀ x ∈ row, 1 ≤ x ∧ x ≤ 3) ∧
    riAt (calculateRefractiveIndices M hm) tStar jStar = 1 + M.exp (-5) * 2 ∧
    1 + M.exp (-5) * 2 ≠ 1 := by
  have hexp5 := hE (-5) (by norm_num)
  refine ⟨?_, ?_, ?_⟩
  · intro row hrow x hx
    simp only [calculateRefractiveIndices, List.mem_map] at hrow
    obtain ⟨volumes, hvol, rfl⟩ := hrow
    simp only [List.mem_map] at hx
    obtain ⟨j, hj, rfl⟩ := hx
    set nv := if 0 < jsMaxAbs volumes then |volumes.getD j 0| / jsMaxAbs volumes else 0 with hnv
    have hnv0 : 0 ≤ nv := by
      rw [hnv]
      split
      · positivity
      · exact le_refl 0
    obtain ⟨h1, h2⟩ := hE (-5 * nv) (by nlinarith)
    constructor <;> nlinarith
  · have hTm : tStar < (calculateRefractiveIndices M hm).length := by
      simpa [calculateRefractiveIndices] using hT
    have hrowget : hm.heatmap.getD tStar [] = hm.heatmap[tStar] := getD_lt _ _ _ hT
    have hrowmem : hm.heatmap[tStar] ∈ hm.heatmap := List.getElem_mem hT
    have hlen : (hm.heatmap[tStar]).length = hm.priceLevels.length := hrows _ hrowmem
    have hvmem : (hm.heatmap[tStar]).getD jStar 0 ∈ hm.heatmap[tStar] := by
      have hjlt : jStar < (hm.heatmap[tStar]).length := by rw [hlen]; exact hJ
      rw [getD_lt _ _ _ hjlt]
      exact List.getElem_mem hjlt
    have hmaxeq : jsMaxAbs hm.heatmap[tStar] = |(hm.heatmap[tStar]).getD jStar 0| := by
      refine le_antisymm ?_ ?_
      · refine foldl_max_le (abs_nonneg _) ?_
        intro v hv
        have := hmax _ hrowmem v hv
        rwa [hrowget] at this
      · exact le_foldl_max_of_mem hvmem 0
    have hpos2 : 0 < |(hm.heatmap[tStar]).getD jStar 0| := by rwa [hrowget] at hpos
    rw [riAt, getD_lt _ _ _ hTm]
    simp only [calculateRefractiveIndices, List.getElem_map]
    have hJm : jStar <
        ((List.range hm.priceLevels.length).map (fun j =>
          1 + M.exp (-5 * (if 0 < jsMaxAbs hm.heatmap[tStar] then
            |(hm.heatmap[tStar]).getD j 0| / jsMaxAbs hm.heatmap[tStar] else 0)) * 2)).length := by
      simpa using hJ
    rw [getD_lt _ _ _ hJm]
    simp only [List.getElem_map, List.getElem_range]
    rw [hmaxeq, if_pos hpos2, div_self (ne_of_gt hpos2)]
    norm_num
  · intro hcontr
    nlinarith [hexp5.1]

/-- Witness for the amended C1 theorem at the concrete heatmap `hmC1ex`. -/
theorem C1_witness :
    (0 < hmC1ex.heatmap.length ∧ 1 < hmC1ex.priceLevels.length ∧
     0 < |(hmC1ex.heatmap.getD 0 []).getD 1 0|) ∧
    ((∀ row ∈ calculateRefractiveIndices M0 hmC1ex, ∀ x ∈ row, 1 ≤ x ∧ x ≤ 3) ∧
     riAt (calculateRefractiveIndices M0 hmC1ex) 0 1 = 1 + M0.exp (-5) * 2 ∧
     1 + M0.exp (-5) * 2 ≠ 1) :=
  ⟨⟨by decide, by decide, by decide⟩,
   C1_field_bounds_and_max_cell M0 M0_expLike hmC1ex 0 1 (by decide) (by decide) (by decide)
     (by decide) (by decide)⟩

/-! ## C6: path length -/

/-- A three-timestamp heatmap used to exhibit the guard of
`findOptimalPricePath`. -/
def hmC6ex : HeatmapData :=
  { timestamps := [0, 60, 120], priceLevels := [100, 101]
    heatmap := [[1, 2], [2, 1], [1, 1]] }

/-- The entry point used in the C6 instances. -/
def entryC6 : EntryPoint := { price := 100, index := 0, timeIndex := 0 }

/-- Counterexample for claim C6: with `T = 3` timestamps but a single
candlestick the guard `candlestickData.length < 2` makes the path finder
return the empty path, of length `0`, not `T - timeIndex = 3`. -/
theorem C6_counterexample :
    (findOptimalPricePath M0 hmC6ex (calculateRefractiveIndices M0 hmC6ex)
      [{ timestamp := 0, close := 100 }] (some entryC6) [] 0).1.length ≠
      hmC6ex.timestamps.length - entryC6.timeIndex := by
  norm_num [findOptimalPricePath, hmC6ex, entryC6]

/-- Claim C6, amended: the path returned by `findOptimalPricePath` has
exactly `T - entryPoint.timeIndex` points whenever the guard passes, i.e.
whenever there are at least two timestamps and at least two candlesticks
(and the entry time index is in range); with fewer the source returns an
empty path instead. -/
theorem C6_path_length (M : JsMath) (hm : HeatmapData) (ri : List (List ℚ))
    (candlestickData : List Candle) (e : EntryPoint) (allPaths : List (List PathPoint))
    (pathIndex : ℤ)
    (hT : 2 ≤ hm.timestamps.length) (hC : 2 ≤ candlestickData.length)
    (hTi : e.timeIndex < hm.timestamps.length) :
    (findOptimalPricePath M hm ri candlestickData (some e) allPaths pathIndex).1.length =
      hm.timestamps.length - e.timeIndex := by
  have hguard : ¬(hm.timestamps.length < 2 ∨ candlestickData.length < 2) := by omega
  have hstep : ∀ acc i,
      ((pathStep M hm ri candlestickData allPaths pathIndex acc i).1).length =
        acc.1.length + 1 := by
    intro acc i
    simp [pathStep]
  simp only [findOptimalPricePath, if_neg hguard]
  rw [foldl_snoc_length _ hstep]
  simp only [List.length_range', List.length_cons, List.length_nil]
  omega

/-- Witness for the amended C6 theorem on a concrete three-step heatmap with
two candlesticks. -/
theorem C6_witness :
    (2 ≤ hmC6ex.timestamps.length ∧ entryC6.timeIndex < hmC6ex.timestamps.length) ∧
    (findOptimalPricePath M0 hmC6ex (calculateRefractiveIndices M0 hmC6ex)
      [{ timestamp := 0, close := 100 }, { timestamp := 60, close := 101 }]
      (some entryC6) [] 0).1.length =
      hmC6ex.timestamps.length - entryC6.timeIndex :=
  ⟨⟨by decide, by decide⟩,
   C6_path_length M0 hmC6ex (calculateRefractiveIndices M0 hmC6ex)
     [{ timestamp := 0, close := 100 }, { timestamp := 60, close := 101 }]
     entryC6 [] 0 (by decide) (by decide) (by decide)⟩

/-! ## C3: impassable candidates are excluded from the path search -/

theorem scanFold_invariant (f c : ℕ → ℚ) (S : List ℕ) :
    ∀ (l : List ℕ) (acc : Option ℚ × ℕ),
      (∀ j ∈ l, j ∈ S) →
      (∀ m, acc.1 = some m → acc.2 ∈ S ∧ f acc.2 ≤ 3) →
      ((∀ m, (l.foldl (scanStep f c) acc).1 = some m →
          (l.foldl (scanStep f c) acc).2 ∈ S ∧ f (l.foldl (scanStep f c) acc).2 ≤ 3) ∧
       ((l.foldl (scanStep f c) acc).1 = none →
          l.foldl (scanStep f c) acc = acc ∧ ∀ j ∈ l, 3 < f j)) := by
  intro l
  induction l with
  | nil =>
    intro acc hsub hacc
    exact ⟨hacc, fun _ => ⟨rfl, by simp⟩⟩
  | cons j l ih =>
    intro acc hsub hacc
    have hsubl : ∀ k ∈ l, k ∈ S := fun k hk => hsub k (List.mem_cons_of_mem _ hk)
    have hjS : j ∈ S := hsub j (List.mem_cons_self _ _)
    rw [List.foldl_cons]
    by_cases hfj : 3 < f j
    · have hstep : scanStep f c acc j = acc := by rw [scanStep, if_pos hfj]
      rw [hstep]
      obtain ⟨h1, h2⟩ := ih acc hsubl hacc
      refine ⟨h1, fun hnone => ?_⟩
      obtain ⟨heq, hall⟩ := h2 hnone
      refine ⟨heq, fun k hk => ?_⟩
      rcases List.mem_cons.1 hk with hk | hk
      · subst hk; exact hfj
      · exact hall k hk
    · have hfj2 : f j ≤ 3 := le_of_not_lt hfj
      obtain ⟨o, v⟩ := acc
      cases o with
      | none =>
        have hstep : scanStep f c (none, v) j = (some (c j), j) := by
          rw [scanStep, if_neg hfj]
        rw [hstep]
        obtain ⟨h1, h2⟩ := ih (some (c j), j) hsubl (fun m _ => ⟨hjS, hfj2⟩)
        refine ⟨h1, fun hnone => ?_⟩
        obtain ⟨heq, _⟩ := h2 hnone
        rw [heq] at hnone
        simp at hnone
      | some m =>
        by_cases hcm : c j < m
        · have hstep : scanStep f c (some m, v) j = (some (c j), j) := by
            rw [scanStep, if_neg hfj]
            simp [hcm]
          rw [hstep]
          obtain ⟨h1, h2⟩ := ih (some (c j), j) hsubl (fun k _ => ⟨hjS, hfj2⟩)
          refine ⟨h1, fun hnone => ?_⟩
          obtain ⟨heq, _⟩ := h2 hnone
          rw [heq] at hnone
          simp at hnone
        · have hstep : scanStep f c (some m, v) j = (some m, v) := by
            rw [scanStep, if_neg hfj]
            simp [hcm]
          rw [hstep]
          obtain ⟨h1, h2⟩ := ih (some m, v) hsubl hacc
          refine ⟨h1, fun hnone => ?_⟩
          obtain ⟨heq, _⟩ := h2 hnone
          rw [heq] at hnone
          simp at hnone

/-- Claim C3 (confirmed): at every forward step of the path finder, either
the chosen index is one of the candidates of the search window and its field
value is at most 3 (so a candidate whose field value exceeds the cutoff 3 is
never selected — in particular, whenever at least one candidate with field
value at most 3 exists in the window, the step cannot land on an excluded
index), or every candidate in the window is excluded and the step keeps the
current index unchanged. -/
theorem C3_impassable_excluded (ri : List (List ℚ)) (rmap : List (List RCell))
    (priceLevels : List ℚ) (allPaths : List (List PathPoint)) (pathIndex : ℤ) (tsMs : ℚ)
    (i cur : ℕ) (actualPriceIndex : ℤ) (searchRadius : ℕ) :
    (chooseNext ri rmap priceLevels allPaths pathIndex tsMs i cur actualPriceIndex
        searchRadius ∈ candidateIndices priceLevels.length cur searchRadius ∧
      riAt ri i (chooseNext ri rmap priceLevels allPaths pathIndex tsMs i cur
        actualPriceIndex searchRadius) ≤ 3) ∨
    (chooseNext ri rmap priceLevels allPaths pathIndex tsMs i cur actualPriceIndex
        searchRadius = cur ∧
      ∀ j ∈ candidateIndices priceLevels.length cur searchRadius, 3 < riAt ri i j) := by
  simp only [chooseNext]
  set cand := candidateIndices priceLevels.length cur searchRadius with hcand
  set f := fun j => riAt ri i j with hf
  set c := fun j =>
    pathCost ri rmap priceLevels allPaths pathIndex tsMs i cur actualPriceIndex j with hc
  have h := scanFold_invariant f c cand cand ((none : Option ℚ), cur)
    (fun j hj => hj) (fun m hm => by simp at hm)
  rcases hres : (cand.foldl (scanStep f c) ((none : Option ℚ), cur)).1 with _ | m
  · right
    obtain ⟨heq, hall⟩ := h.2 hres
    rw [heq]
    exact ⟨rfl, hall⟩
  · left
    exact h.1 m hres

/-! ## C2: the repulsion relaxation -/

theorem mem_pairsBelow {n i j : ℕ} : (i, j) ∈ pairsBelow n ↔ i < n ∧ j < n ∧ i < j := by
  simp only [pairsBelow, List.mem_flatMap, List.mem_filter, List.mem_map, List.mem_range]
  constructor
  · rintro ⟨a, ha, ⟨b, hb, hab⟩, hlt⟩
    obtain ⟨rfl, rfl⟩ := Prod.mk.injEq .. ▸ hab
    exact ⟨ha, hb, by simpa using hlt⟩
  · rintro ⟨hi, hj, hij⟩
    exact ⟨i, hi, ⟨j, hj, rfl⟩, by simpa using hij⟩

theorem relaxFold_true (pl : List ℚ) (ms : ℕ) :
    ∀ (l : List (ℕ × ℕ)) (acc : List EntryPoint × Bool), acc.2 = true →
      (l.foldl (relaxStep pl ms) acc).2 = true := by
  intro l
  induction l with
  | nil => intro acc h; exact h
  | cons ij l ih =>
    intro acc h
    rw [List.foldl_cons]
    apply ih
    rw [relaxStep]
    split
    · rfl
    · exact h

theorem relaxFold_false (pl : List ℚ) (ms : ℕ) :
    ∀ (l : List (ℕ × ℕ)) (acc : List EntryPoint × Bool),
      (l.foldl (relaxStep pl ms) acc).2 = false →
      l.foldl (relaxStep pl ms) acc = acc ∧
      ∀ ij ∈ l, ms ≤ (((acc.1.getD ij.1 default).index : ℤ) -
        ((acc.1.getD ij.2 default).index : ℤ)).natAbs := by
  intro l
  induction l with
  | nil => intro acc _; exact ⟨rfl, by simp⟩
  | cons ij l ih =>
    intro acc hfalse
    rw [List.foldl_cons] at hfalse ⊢
    by_cases hd : (((acc.1.getD ij.1 default).index : ℤ) -
        ((acc.1.getD ij.2 default).index : ℤ)).natAbs < ms
    · exfalso
      have hstep : (relaxStep pl ms acc ij).2 = true := by
        rw [relaxStep, if_pos hd]
      have := relaxFold_true pl ms l _ hstep
      rw [this] at hfalse
      cases hfalse
    · have hstep : relaxStep pl ms acc ij = acc := by
        rw [relaxStep, if_neg hd]
      rw [hstep] at hfalse ⊢
      obtain ⟨heq, hall⟩ := ih acc hfalse
      refine ⟨heq, fun kl hkl => ?_⟩
      rcases List.mem_cons.1 hkl with hkl | hkl
      · subst hkl; exact le_of_not_lt hd
      · exact hall kl hkl

theorem relaxPass_false (pl : List ℚ) (ms : ℕ) (eps : List EntryPoint)
    (h : (relaxPass pl ms eps).2 = false) :
    (relaxPass pl ms eps).1 = eps ∧ allSeparated ms eps := by
  rw [relaxPass] at h ⊢
  obtain ⟨heq, hall⟩ := relaxFold_false pl ms (pairsBelow eps.length) (eps, false) h
  rw [heq]
  refine ⟨rfl, fun i j hij hjn => ?_⟩
  exact hall (i, j) (mem_pairsBelow.2 ⟨lt_trans hij hjn, hjn, hij⟩)

theorem relaxLoop_spec (pl : List ℚ) (ms : ℕ) :
    ∀ (fuel : ℕ) (eps : List EntryPoint),
      (relaxLoop pl ms fuel eps).2 ≤ fuel ∧
      (allSeparated ms (relaxLoop pl ms fuel eps).1 ∨ (relaxLoop pl ms fuel eps).2 = fuel) := by
  intro fuel
  induction fuel with
  | zero => intro eps; exact ⟨le_refl 0, Or.inr rfl⟩
  | succ f ih =>
    intro eps
    rw [relaxLoop]
    cases hpass : (relaxPass pl ms eps).2
    · simp only [hpass, Bool.false_eq_true, if_false]
      obtain ⟨heq, hsep⟩ := relaxPass_false pl ms eps hpass
      rw [heq]
      exact ⟨by omega, Or.inl hsep⟩
    · simp only [hpass, if_true]
      obtain ⟨hle, hor⟩ := ih (relaxPass pl ms eps).1
      refine ⟨by omega, ?_⟩
      rcases hor with hsep | hcount
      · exact Or.inl hsep
      · exact Or.inr (by omega)

/-- Claim C2, amended: for every heatmap and `pathCount > 1`, after the
repulsion relaxation of `determineEntryPoints` terminates, either all
pairwise entry-index distances are at least
`minSeparation = max(1, floor(P / (pathCount * 1.5)))`, or the 20-pass
iteration cap was reached.  (The monotonicity clause of the original claim
is false: the violation sum can grow across an iteration, see the
counterexample.) -/
theorem C2_relaxation_terminates (hm : HeatmapData) (pathCount : ℕ) (_h : 1 < pathCount) :
    allSeparated (minSeparationOf hm.priceLevels.length pathCount)
      (relaxLoop hm.priceLevels (minSeparationOf hm.priceLevels.length pathCount) 20
        (initialEntryPoints hm.priceLevels pathCount)).1 ∨
    (relaxLoop hm.priceLevels (minSeparationOf hm.priceLevels.length pathCount) 20
      (initialEntryPoints hm.priceLevels pathCount)).2 = 20 :=
  (relaxLoop_spec hm.priceLevels (minSeparationOf hm.priceLevels.length pathCount) 20
    (initialEntryPoints hm.priceLevels pathCount)).2

/-- The two-level price grid of the C2 counterexample. -/
def plC2ex : List ℚ := [0, 1]

/-- The evenly spaced initial entry points for `plC2ex` with `pathCount = 4`
(computed by `initialEntryPoints`, see `C2_counterexample`). -/
def initC2 : List EntryPoint :=
  [{ price := 0, index := 0, timeIndex := 0 }, { price := 1/3, index := 0, timeIndex := 0 },
   { price := 2/3, index := 1, timeIndex := 0 }, { price := 1, index := 1, timeIndex := 0 }]

/-- The entry points after the first relaxation pass on `initC2`. -/
def relaxedC2 : List EntryPoint :=
  [{ price := 1, index := 1, timeIndex := 0 }, { price := 1, index := 1, timeIndex := 0 },
   { price := 1, index := 1, timeIndex := 0 }, { price := 0, index := 0, timeIndex := 0 }]

set_option maxHeartbeats 1600000 in
/-- Counterexample for the monotonicity clause of claim C2: on the grid
`[0, 1]` with `pathCount = 4` (so `minSeparation = 1`), the sum of
separation violations of the generated entry points is `2` before the first
relaxation iteration and `3` after it — the sum of violations increases
across an iteration (clamping at the grid bounds pushes points back onto
each other). -/
theorem C2_counterexample :
    violationSum (minSeparationOf plC2ex.length 4) (initialEntryPoints plC2ex 4) <
      violationSum (minSeparationOf plC2ex.length 4)
        (relaxPass plC2ex (minSeparationOf plC2ex.length 4)
          (initialEntryPoints plC2ex 4)).1 := by
  have hms : minSeparationOf plC2ex.length 4 = 1 := by norm_num [minSeparationOf, plC2ex]
  have hinit : initialEntryPoints plC2ex 4 = initC2 := by
    norm_num [initialEntryPoints, plC2ex, initC2, jsMin, jsMax, findClosestPriceIndex,
      List.range_succ, abs_of_nonneg]
  have hceil : (⌈(1:ℚ) / 2⌉ : ℤ) = 1 := by
    rw [Int.ceil_eq_iff]
    norm_num
  have hpass : (relaxPass plC2ex 1 initC2).1 = relaxedC2 := by
    norm_num [relaxPass, pairsBelow, relaxStep, clampIndex, initC2, plC2ex, relaxedC2,
      List.range_succ, List.flatMap_cons, List.filter_cons, hceil]
  rw [hms, hinit, hpass]
  norm_num [violationSum, pairsBelow, initC2, relaxedC2, List.range_succ, List.flatMap_cons,
    List.filter_cons]

/-- A heatmap carrying the C2 witness grid. -/
def hmC2w : HeatmapData := { timestamps := [], priceLevels := plC2ex, heatmap := [] }

/-- Witness for the amended C2 theorem at `pathCount = 4` on the grid
`[0, 1]`. -/
theorem C2_witness :
    1 < 4 ∧
    (allSeparated (minSeparationOf hmC2w.priceLevels.length 4)
      (relaxLoop hmC2w.priceLevels (minSeparationOf hmC2w.priceLevels.length 4) 20
        (initialEntryPoints hmC2w.priceLevels 4)).1 ∨
     (relaxLoop hmC2w.priceLevels (minSeparationOf hmC2w.priceLevels.length 4) 20
       (initialEntryPoints hmC2w.priceLevels 4)).2 = 20) :=
  ⟨by norm_num, C2_relaxation_terminates hmC2w 4 (by norm_num)⟩

/-! ## C5: the market-price guarantee of the entry-point selector -/

theorem initialEntryPoints_length (pl : List ℚ) (pc : ℕ) :
    (initialEntryPoints pl pc).length = pc :=
  (List.length_map _ _).trans (List.length_range pc)

theorem relaxStep_length (pl : List ℚ) (ms : ℕ) (acc : List EntryPoint × Bool) (ij : ℕ × ℕ) :
    ((relaxStep pl ms acc ij).1).length = acc.1.length := by
  rw [relaxStep]
  split
  · simp
  · rfl

theorem relaxFold_length (pl : List ℚ) (ms : ℕ) :
    ∀ (l : List (ℕ × ℕ)) (acc : List EntryPoint × Bool),
      ((l.foldl (relaxStep pl ms) acc).1).length = acc.1.length := by
  intro l
  induction l with
  | nil => intro acc; rfl
  | cons ij l ih =>
    intro acc
    rw [List.foldl_cons, ih, relaxStep_length]

theorem relaxLoop_length (pl : List ℚ) (ms : ℕ) :
    ∀ (fuel : ℕ) (eps : List EntryPoint),
      ((relaxLoop pl ms fuel eps).1).length = eps.length := by
  intro fuel
  induction fuel with
  | zero => intro eps; rfl
  | succ f ih =>
    intro eps
    rw [relaxLoop]
    cases hpass : (relaxPass pl ms eps).2
    · simp only [hpass, Bool.false_eq_true, if_false]
      rw [relaxPass] at hpass ⊢
      exact relaxFold_length pl ms _ _
    · simp only [hpass, if_true]
      rw [ih]
      rw [relaxPass]
      exact relaxFold_length pl ms _ _

theorem getD_timeIndex_zero {eps : List EntryPoint} (h : ∀ ep ∈ eps, ep.timeIndex = 0)
    (k : ℕ) : (eps.getD k default).timeIndex = 0 := by
  by_cases hk : k < eps.length
  · rw [getD_lt _ _ _ hk]
    exact h _ (List.getElem_mem hk)
  · rw [List.getD_eq_getElem?_getD, List.getElem?_eq_none (by omega)]
    rfl

theorem relaxStep_timeIndex (pl : List ℚ) (ms : ℕ) (acc : List EntryPoint × Bool)
    (ij : ℕ × ℕ) (h : ∀ ep ∈ acc.1, ep.timeIndex = 0) :
    ∀ ep ∈ (relaxStep pl ms acc ij).1, ep.timeIndex = 0 := by
  intro ep hep
  rw [relaxStep] at hep
  split at hep
  · simp only at hep
    rcases List.mem_or_eq_of_mem_set hep with hep | hep
    · rcases List.mem_or_eq_of_mem_set hep with hep | hep
      · exact h ep hep
      · rw [hep]
        exact getD_timeIndex_zero h ij.1
    · rw [hep]
      exact getD_timeIndex_zero h ij.2
  · exact h ep hep

theorem relaxFold_timeIndex (pl : List ℚ) (ms : ℕ) :
    ∀ (l : List (ℕ × ℕ)) (acc : List EntryPoint × Bool),
      (∀ ep ∈ acc.1, ep.timeIndex = 0) →
      ∀ ep ∈ (l.foldl (relaxStep pl ms) acc).1, ep.timeIndex = 0 := by
  intro l
  induction l with
  | nil => intro acc h; exact h
  | cons ij l ih =>
    intro acc h
    rw [List.foldl_cons]
    exact ih _ (relaxStep_timeIndex pl ms acc ij h)

theorem relaxLoop_timeIndex (pl : List ℚ) (ms : ℕ) :
    ∀ (fuel : ℕ) (eps : List EntryPoint),
      (∀ ep ∈ eps, ep.timeIndex = 0) →
      ∀ ep ∈ (relaxLoop pl ms fuel eps).1, ep.timeIndex = 0 := by
  intro fuel
  induction fuel with
  | zero => intro eps h; exact h
  | succ f ih =>
    intro eps h
    rw [relaxLoop]
    cases hpass : (relaxPass pl ms eps).2
    · simp only [hpass, Bool.false_eq_true, if_false]
      rw [relaxPass]
      exact relaxFold_timeIndex pl ms _ _ h
    · simp only [hpass, if_true]
      apply ih
      rw [relaxPass]
      exact relaxFold_timeIndex pl ms _ _ h

theorem initialEntryPoints_timeIndex (pl : List ℚ) (pc : ℕ) :
    ∀ ep ∈ initialEntryPoints pl pc, ep.timeIndex = 0 := by
  intro ep hep
  simp only [initialEntryPoints, List.mem_map] at hep
  obtain ⟨i, _, rfl⟩ := hep
  rfl

/-- Claim C5 (confirmed): after `determineEntryPoints` runs (nonempty grid
and candles, `pathCount ≥ 1`), some returned entry point's index is within
`minSeparation` of the nearest grid index to the first candlestick close;
if no relaxed entry point is within `minSeparation` of that index, the
middle entry point (position `floor(pathCount / 2)`) is overwritten with the
market-price point; and every returned entry point has `timeIndex = 0`. -/
theorem C5_market_price_guarantee (hm : HeatmapData) (candles : List Candle) (pathCount : ℕ)
    (hpc : 1 ≤ pathCount) (_hpl : hm.priceLevels ≠ []) (_hcd : candles ≠ []) :
    (∃ ep ∈ determineEntryPoints hm candles pathCount,
      ((ep.index : ℤ) -
        (findClosestPriceIndex hm.priceLevels (candles.headD default).close : ℤ)).natAbs ≤
        minSeparationOf hm.priceLevels.length pathCount) ∧
    ((∀ ep ∈ (relaxLoop hm.priceLevels (minSeparationOf hm.priceLevels.length pathCount) 20
        (initialEntryPoints hm.priceLevels pathCount)).1,
        ¬ ((ep.index : ℤ) -
            (findClosestPriceIndex hm.priceLevels (candles.headD default).close : ℤ)).natAbs ≤
          minSeparationOf hm.priceLevels.length pathCount) →
      determineEntryPoints hm candles pathCount =
        ((relaxLoop hm.priceLevels (minSeparationOf hm.priceLevels.length pathCount) 20
          (initialEntryPoints hm.priceLevels pathCount)).1).set (pathCount / 2)
          { price := (candles.headD default).close
            index := findClosestPriceIndex hm.priceLevels (candles.headD default).close
            timeIndex := 0 }) ∧
    (∀ ep ∈ determineEntryPoints hm candles pathCount, ep.timeIndex = 0) := by
  set pl := hm.priceLevels with hplev
  set ms := minSeparationOf pl.length pathCount with hmsdef
  set fpi := findClosestPriceIndex pl (candles.headD default).close with hfpi
  set relaxed := (relaxLoop pl ms 20 (initialEntryPoints pl pathCount)).1 with hrel
  have hlen : relaxed.length = pathCount := by
    rw [hrel, relaxLoop_length, initialEntryPoints_length]
  have hti : ∀ ep ∈ relaxed, ep.timeIndex = 0 :=
    relaxLoop_timeIndex pl ms 20 _ (initialEntryPoints_timeIndex pl pathCount)
  have hmid : pathCount / 2 < relaxed.length := by omega
  have hdef : determineEntryPoints hm candles pathCount =
      if relaxed.any (fun ep => ((ep.index : ℤ) - (fpi : ℤ)).natAbs ≤ ms) then relaxed
      else relaxed.set (relaxed.length / 2)
        { price := (candles.headD default).close, index := fpi, timeIndex := 0 } := rfl
  by_cases hmp : relaxed.any (fun ep => ((ep.index : ℤ) - (fpi : ℤ)).natAbs ≤ ms) = true
  · refine ⟨?_, ?_, ?_⟩
    · rw [hdef, if_pos hmp]
      obtain ⟨ep, hep, hprop⟩ := List.any_eq_true.1 hmp
      exact ⟨ep, hep, by simpa using hprop⟩
    · intro hnone
      exfalso
      obtain ⟨ep, hep, hprop⟩ := List.any_eq_true.1 hmp
      exact hnone ep hep (by simpa using hprop)
    · rw [hdef, if_pos hmp]
      exact hti
  · refine ⟨?_, ?_, ?_⟩
    · rw [hdef, if_neg hmp]
      refine ⟨{ price := (candles.headD default).close, index := fpi, timeIndex := 0 },
        List.mem_set relaxed (relaxed.length / 2) (by omega) _, ?_⟩
      simp
    · intro _
      rw [hdef, if_neg hmp, hlen]
    · rw [hdef, if_neg hmp]
      intro ep hep
      rcases List.mem_or_eq_of_mem_set hep with hep | hep
      · exact hti ep hep
      · rw [hep]

/-- The heatmap of the C5 witness. -/
def hmC5w : HeatmapData :=
  { timestamps := [0, 60], priceLevels := [100, 101, 102, 103, 104, 105, 106, 107]
    heatmap := [[1], [1]] }

/-- The candlestick list of the C5 witness. -/
def cdC5w : List Candle := [{ timestamp := 0, close := 100 }]

/-- Witness for C5 at a concrete grid with `pathCount = 2`. -/
theorem C5_witness :
    (1 ≤ 2 ∧ hmC5w.priceLevels ≠ [] ∧ cdC5w ≠ []) ∧
    ((∃ ep ∈ determineEntryPoints hmC5w cdC5w 2,
      ((ep.index : ℤ) -
        (findClosestPriceIndex hmC5w.priceLevels (cdC5w.headD default).close : ℤ)).natAbs ≤
        minSeparationOf hmC5w.priceLevels.length 2) ∧
    ((∀ ep ∈ (relaxLoop hmC5w.priceLevels (minSeparationOf hmC5w.priceLevels.length 2) 20
        (initialEntryPoints hmC5w.priceLevels 2)).1,
        ¬ ((ep.index : ℤ) -
            (findClosestPriceIndex hmC5w.priceLevels (cdC5w.headD default).close : ℤ)).natAbs ≤
          minSeparationOf hmC5w.priceLevels.length 2) →
      determineEntryPoints hmC5w cdC5w 2 =
        ((relaxLoop hmC5w.priceLevels (minSeparationOf hmC5w.priceLevels.length 2) 20
          (initialEntryPoints hmC5w.priceLevels 2)).1).set (2 / 2)
          { price := (cdC5w.headD default).close
            index := findClosestPriceIndex hmC5w.priceLevels (cdC5w.headD default).close
            timeIndex := 0 }) ∧
    (∀ ep ∈ determineEntryPoints hmC5w cdC5w 2, ep.timeIndex = 0)) :=
  ⟨⟨by omega, by simp [hmC5w], by simp [cdC5w]⟩,
   C5_market_price_guarantee hmC5w cdC5w 2 (by omega) (by simp [hmC5w]) (by simp [cdC5w])⟩

/-! ## C7: momentum vector count and confidence bounds -/

theorem getD_last_mem {α : Type} (l : List α) (d : α) (h : 0 < l.length) :
    l.getD (l.length - 1) d ∈ l := by
  rw [getD_lt _ _ _ (by omega)]
  exact List.getElem_mem (by omega)

theorem confidence_bounds {fc sf gs : ℚ} (hfc0 : 0 ≤ fc) (hfc1 : fc ≤ 1)
    (hsf0 : 0 < sf) (hsf1 : sf ≤ 1) (hgs0 : 0 < gs) (hgs1 : gs ≤ 1) :
    0.3 < 0.3 + 0.7 * (fc * 0.4 + sf * 0.3 + gs * 0.3) ∧
    0.3 + 0.7 * (fc * 0.4 + sf * 0.3 + gs * 0.3) ≤ 1 := by
  constructor <;> nlinarith

theorem momentumStep_spec (M : JsMath) (path : List PathPoint) (hE : ExpLike M.exp)
    (hC : CosLike M.cos) (hres : ∀ pt ∈ path, 1 ≤ pt.resistance)
    (acc : List MomentumVector × List ℚ) (i : ℕ) (hi : i < path.length) :
    ((momentumStep M path acc i).1).length = acc.1.length + 1 ∧
    ((momentumStep M path acc i).2).length = acc.2.length + 1 ∧
    ∀ c ∈ (momentumStep M path acc i).2, c ∈ acc.2 ∨ (0.3 < c ∧ c ≤ 1) := by
  have hri : 1 ≤ (path.getD i default).resistance := by
    rw [getD_lt _ _ _ hi]
    exact hres _ (List.getElem_mem hi)
  refine ⟨by simp [momentumStep], by simp [momentumStep], ?_⟩
  intro c hc
  simp only [momentumStep, List.mem_append, List.mem_singleton] at hc
  rcases hc with hc | hc
  · exact Or.inl hc
  · right
    subst hc
    apply confidence_bounds
    · split
      · exact abs_nonneg _
      · norm_num
    · split
      · exact hC _
      · norm_num
    · positivity
    · rw [div_le_one (by linarith)]
      exact hri
    · exact (hE _ (by nlinarith [abs_nonneg ((((path.getD (i + 1) default).price -
        (path.getD i default).price) /
          ((if ((path.getD (i + 1) default).time - (path.getD i default).time) / 3600000 = 0
            then 0.001
            else ((path.getD (i + 1) default).time - (path.getD i default).time) / 3600000) *
            (path.getD i default).resistance) -
        ((path.getD i default).price - (path.getD (i - 1) default).price) /
          ((if ((path.getD i default).time - (path.getD (i - 1) default).time) / 3600000 = 0
            then 0.001
            else ((path.getD i default).time - (path.getD (i - 1) default).time) / 3600000) *
            (path.getD (i - 1) default).resistance)) /
        (((path.getD i default).time - (path.getD (i - 1) default).time) / 3600000 +
          ((path.getD (i + 1) default).time - (path.getD i default).time) / 3600000) *
        (path.getD i default).resistance)])).1
    · exact (hE _ (by nlinarith [abs_nonneg ((((path.getD (i + 1) default).price -
        (path.getD i default).price) /
          ((if ((path.getD (i + 1) default).time - (path.getD i default).time) / 3600000 = 0
            then 0.001
            else ((path.getD (i + 1) default).time - (path.getD i default).time) / 3600000) *
            (path.getD i default).resistance) -
        ((path.getD i default).price - (path.getD (i - 1) default).price) /
          ((if ((path.getD i default).time - (path.getD (i - 1) default).time) / 3600000 = 0
            then 0.001
            else ((path.getD i default).time - (path.getD (i - 1) default).time) / 3600000) *
            (path.getD (i - 1) default).resistance)) /
        (((path.getD i default).time - (path.getD (i - 1) default).time) / 3600000 +
          ((path.getD (i + 1) default).time - (path.getD i default).time) / 3600000) *
        (path.getD i default).resistance)])).2

theorem momentumFold_spec (M : JsMath) (path : List PathPoint) (hE : ExpLike M.exp)
    (hC : CosLike M.cos) (hres : ∀ pt ∈ path, 1 ≤ pt.resistance) :
    ∀ (l : List ℕ) (acc : List MomentumVector × List ℚ),
      (∀ i ∈ l, i < path.length) →
      (∀ c ∈ acc.2, 0.3 < c ∧ c ≤ 1) →
      ((l.foldl (momentumStep M path) acc).1.length = acc.1.length + l.length ∧
       (l.foldl (momentumStep M path) acc).2.length = acc.2.length + l.length ∧
       ∀ c ∈ (l.foldl (momentumStep M path) acc).2, 0.3 < c ∧ c ≤ 1) := by
  intro l
  induction l with
  | nil => intro acc _ hacc; exact ⟨rfl, rfl, hacc⟩
  | cons i l ih =>
    intro acc hl hacc
    rw [List.foldl_cons]
    obtain ⟨h1, h2, h3⟩ := momentumStep_spec M path hE hC hres acc i
      (hl i (List.mem_cons_self _ _))
    obtain ⟨g1, g2, g3⟩ := ih (momentumStep M path acc i)
      (fun k hk => hl k (List.mem_cons_of_mem _ hk))
      (fun c hc => by
        rcases h3 c hc with hc2 | hc2
        · exact hacc c hc2
        · exact hc2)
    refine ⟨?_, ?_, g3⟩
    · rw [g1, h1, List.length_cons]
      omega
    · rw [g2, h2, List.length_cons]
      omega

/-- Claim C7 (confirmed): for a path with at least three points whose
resistances are field values (at least 1), the momentum derivator returns
exactly `path.length` momentum vectors, and every confidence score lies in
the half-open interval `(0.3, 1]`. -/
theorem C7_momentum_confidence (M : JsMath) (path : List PathPoint)
    (hE : ExpLike M.exp) (hC : CosLike M.cos)
    (hres : ∀ pt ∈ path, 1 ≤ pt.resistance) (hlen : 3 ≤ path.length) :
    (calculateOpticalMomentum M path).1.length = path.length ∧
    ∀ c ∈ (calculateOpticalMomentum M path).2, 0.3 < c ∧ c ≤ 1 := by
  have hguard : ¬ (path.length < 3) := by omega
  obtain ⟨h1, h2, h3⟩ := momentumFold_spec M path hE hC hres
    (List.range' 1 (path.length - 2))
    ([{ x := (path.getD 0 default).time, y := (path.getD 0 default).price, dx := 0, dy := 0
        magnitude := 0, direction := 0, force := 0 }], [])
    (fun i hi => by
      have := List.mem_range'_1.1 hi
      omega)
    (by simp)
  rw [List.length_range'] at h1 h2
  rw [List.length_cons, List.length_nil] at h1
  rw [List.length_nil] at h2
  simp only [calculateOpticalMomentum]
  rw [if_neg hguard, if_pos (by rw [h1]; omega)]
  constructor
  · rw [List.length_append, List.length_cons, List.length_nil, h1]
    omega
  · intro c hc
    rcases List.mem_append.1 hc with hc | hc
    · exact h3 c hc
    · rw [List.mem_singleton] at hc
      subst hc
      split
      · norm_num
      · exact h3 _ (getD_last_mem _ _ (by omega))

/-! ## C9: signal arrays are offset by three from the oscillator arrays -/

theorem emaAux_length (a : ℚ) : ∀ (prev : ℚ) (l : List ℚ), (emaAux a prev l).length = l.length := by
  intro prev l
  induction l generalizing prev with
  | nil => rfl
  | cons x xs ih =>
    rw [emaAux, List.length_cons, List.length_cons, ih]

theorem ema_length (data : List ℚ) (a : ℚ) :
    (exponentialMovingAverage data a).length = data.length := by
  cases data with
  | nil => rfl
  | cons x xs =>
    rw [exponentialMovingAverage, List.length_cons, List.length_cons, emaAux_length]

theorem obmRawValues_length (hm : HeatmapData) :
    (obmRawValues hm).length = hm.heatmap.length - 1 := by
  rw [obmRawValues, List.length_map, List.length_range']

theorem obmFinalValues_length (hm : HeatmapData) :
    (obmFinalValues hm).length = hm.heatmap.length - 1 := by
  rw [obmFinalValues, List.length_map, List.length_range, obmEmaValues, ema_length,
    obmRawValues_length]

theorem signalStep_lengths (so ts : List ℚ) (dv : List ℕ × List ℕ) (st : SigState) (i : ℕ) :
    (signalStep so ts dv st i).signals.length = st.signals.length + 1 ∧
    (signalStep so ts dv st i).signalStrengths.length = st.signalStrengths.length + 1 := by
  simp only [signalStep]
  split
  · constructor <;> simp
  · split
    · constructor <;> simp
    · constructor <;> simp

theorem signalFold_lengths (so ts : List ℚ) (dv : List ℕ × List ℕ) :
    ∀ (l : List ℕ) (st : SigState),
      ((l.foldl (signalStep so ts dv) st).signals.length = st.signals.length + l.length) ∧
      ((l.foldl (signalStep so ts dv) st).signalStrengths.length =
        st.signalStrengths.length + l.length) := by
  intro l
  induction l with
  | nil => intro st; exact ⟨rfl, rfl⟩
  | cons i l ih =>
    intro st
    rw [List.foldl_cons]
    obtain ⟨g1, g2⟩ := ih (signalStep so ts dv st i)
    obtain ⟨h1, h2⟩ := signalStep_lengths so ts dv st i
    rw [List.length_cons]
    constructor
    · rw [g1, h1]; omega
    · rw [g2, h2]; omega

/-- Claim C9 (confirmed): for every heatmap accepted by the OBM detector,
the `signals` and `signalStrengths` arrays have length
`obmValues.length - 3` (emission starts at oscillator index 3; under the
acceptance guard `obmValues.length = T - 1 ≥ 9 ≥ 5`, so the
`length 0` branch of the source is never taken), hence they are not
index-aligned with `timestamps`, `obmValues`, `trendStrength` and
`forecastValues`. -/
theorem C9_signal_offset (M : JsMath) (hm : HeatmapData) (h : 10 ≤ hm.heatmap.length) :
    5 ≤ (calculateOBM M hm).obmValues.length ∧
    (calculateOBM M hm).signals.length = (calculateOBM M hm).obmValues.length - 3 ∧
    (calculateOBM M hm).signalStrengths.length = (calculateOBM M hm).obmValues.length - 3 := by
  have hg : ¬ (hm.heatmap.length < 10) := by omega
  have hn : (obmFinalValues hm).length = hm.heatmap.length - 1 := obmFinalValues_length hm
  have h5 : 5 ≤ (obmFinalValues hm).length := by omega
  obtain ⟨hs1, hs2⟩ := signalFold_lengths (obmSmoothed hm) (obmTrendValues hm)
    (findDivergences (obmSmoothed hm) (obmSecondSmoothing hm))
    (List.range' 3 ((obmFinalValues hm).length - 3))
    { inLong := false, inShort := false, lastSignalIndex := -10
      signals := [], signalStrengths := [] }
  rw [List.length_range'] at hs1 hs2
  simp only [calculateOBM, if_neg hg, if_pos h5]
  refine ⟨h5, ?_, ?_⟩
  · rw [obmSignalState, hs1]
    simp
  · rw [obmSignalState, hs2]
    simp

/-- The ten-row single-level heatmap used by several witnesses (its OBM
pipeline produces all-zero values, see C10). -/
def hmP1 : HeatmapData :=
  { timestamps := [0, 60, 120, 180, 240, 300, 360, 420, 480, 540]
    priceLevels := [100]
    heatmap := [[3], [1], [4], [1], [5], [9], [2], [6], [5], [3]] }

/-- Witness for C9 at the concrete ten-row heatmap `hmP1`. -/
theorem C9_witness :
    10 ≤ hmP1.heatmap.length ∧
    (5 ≤ (calculateOBM M0 hmP1).obmValues.length ∧
     (calculateOBM M0 hmP1).signals.length = (calculateOBM M0 hmP1).obmValues.length - 3 ∧
     (calculateOBM M0 hmP1).signalStrengths.length =
       (calculateOBM M0 hmP1).obmValues.length - 3) :=
  ⟨by decide, C9_signal_offset M0 hmP1 (by decide)⟩

/-! ## C4: signal alphabet, cooldown, lengths and forecast nulls -/

theorem getD_append_lt {α : Type} (l1 l2 : List α) (k : ℕ) (d : α) (h : k < l1.length) :
    (l1 ++ l2).getD k d = l1.getD k d := by
  rw [getD_lt _ _ _ (by rw [List.length_append]; omega), getD_lt _ _ _ h]
  exact List.getElem_append_left h

theorem getD_append_self {α : Type} (l1 : List α) (x : α) (d : α) :
    (l1 ++ [x]).getD l1.length d = x := by
  rw [getD_lt _ _ _ (by simp)]
  simp

/-- The invariant of the signal-emission loop: emitted signals are only
BUY, SELL or NONE; every non-NONE signal at list position `k` was emitted at
oscillator index `k + 3`, which is at most the recorded last signal index;
and any two non-NONE positions are more than the cooldown (5) apart. -/
def SigOk (st : SigState) : Prop :=
  (∀ s ∈ st.signals, s = "BUY" ∨ s = "SELL" ∨ s = "NONE") ∧
  (∀ k, k < st.signals.length → st.signals.getD k "NONE" ≠ "NONE" →
    (k : ℤ) + 3 ≤ st.lastSignalIndex) ∧
  (∀ k1 k2, k1 < k2 → k2 < st.signals.length →
    st.signals.getD k1 "NONE" ≠ "NONE" → st.signals.getD k2 "NONE" ≠ "NONE" →
    5 < k2 - k1)

theorem signalStep_sigOk (so ts : List ℚ) (dv : List ℕ × List ℕ) (st : SigState) (i : ℕ)
    (hok : SigOk st) (hlen : st.signals.length + 3 = i) :
    SigOk (signalStep so ts dv st i) ∧ (signalStep so ts dv st i).signals.length + 3 = i + 1 := by
  obtain ⟨hmem, hlast, hgap⟩ := hok
  simp only [signalStep]
  split
  · next hcond =>
    obtain ⟨-, -, hcool⟩ := hcond
    refine ⟨⟨?_, ?_, ?_⟩, by simp; omega⟩
    · intro s hs
      rcases List.mem_append.1 hs with hs | hs
      · exact hmem s hs
      · rw [List.mem_singleton] at hs
        exact Or.inl hs
    · intro k hk _
      simp only [List.length_append, List.length_cons, List.length_nil] at hk
      show (k : ℤ) + 3 ≤ (i : ℤ)
      omega
    · intro k1 k2 h12 hk2 hne1 hne2
      simp only [List.length_append, List.length_cons, List.length_nil] at hk2
      by_cases hk2top : k2 = st.signals.length
      · subst hk2top
        have hk1 : k1 < st.signals.length := h12
        rw [getD_append_lt _ _ _ _ hk1] at hne1
        have hb := hlast k1 hk1 hne1
        omega
      · have hk2lt : k2 < st.signals.length := by omega
        rw [getD_append_lt _ _ _ _ hk2lt] at hne2
        rw [getD_append_lt _ _ _ _ (by omega)] at hne1
        exact hgap k1 k2 h12 hk2lt hne1 hne2
  · split
    · next hcond =>
      obtain ⟨-, -, hcool⟩ := hcond
      refine ⟨⟨?_, ?_, ?_⟩, by simp; omega⟩
      · intro s hs
        rcases List.mem_append.1 hs with hs | hs
        · exact hmem s hs
        · rw [List.mem_singleton] at hs
          exact Or.inr (Or.inl hs)
      · intro k hk _
        simp only [List.length_append, List.length_cons, List.length_nil] at hk
        show (k : ℤ) + 3 ≤ (i : ℤ)
        omega
      · intro k1 k2 h12 hk2 hne1 hne2
        simp only [List.length_append, List.length_cons, List.length_nil] at hk2
        by_cases hk2top : k2 = st.signals.length
        · subst hk2top
          have hk1 : k1 < st.signals.length := h12
          rw [getD_append_lt _ _ _ _ hk1] at hne1
          have hb := hlast k1 hk1 hne1
          omega
        · have hk2lt : k2 < st.signals.length := by omega
          rw [getD_append_lt _ _ _ _ hk2lt] at hne2
          rw [getD_append_lt _ _ _ _ (by omega)] at hne1
          exact hgap k1 k2 h12 hk2lt hne1 hne2
    · refine ⟨⟨?_, ?_, ?_⟩, by simp; omega⟩
      · intro s hs
        rcases List.mem_append.1 hs with hs | hs
        · exact hmem s hs
        · rw [List.mem_singleton] at hs
          exact Or.inr (Or.inr hs)
      · intro k hk hne
        simp only [List.length_append, List.length_cons, List.length_nil] at hk
        by_cases hktop : k = st.signals.length
        · subst hktop
          rw [getD_append_self] at hne
          exact absurd rfl hne
        · have hklt : k < st.signals.length := by omega
          rw [getD_append_lt _ _ _ _ hklt] at hne
          exact hlast k hklt hne
      · intro k1 k2 h12 hk2 hne1 hne2
        simp only [List.length_append, List.length_cons, List.length_nil] at hk2
        by_cases hk2top : k2 = st.signals.length
        · subst hk2top
          rw [getD_append_self] at hne2
          exact absurd rfl hne2
        · have hk2lt : k2 < st.signals.length := by omega
          rw [getD_append_lt _ _ _ _ hk2lt] at hne2
          rw [getD_append_lt _ _ _ _ (by omega)] at hne1
          exact hgap k1 k2 h12 hk2lt hne1 hne2

theorem signalFold_sigOk (so ts : List ℚ) (dv : List ℕ × List ℕ) :
    ∀ (m : ℕ) (st : SigState) (i0 : ℕ), SigOk st → st.signals.length + 3 = i0 →
      SigOk ((List.range' i0 m).foldl (signalStep so ts dv) st) := by
  intro m
  induction m with
  | zero => intro st i0 hok _; exact hok
  | succ m ih =>
    intro st i0 hok hlen
    rw [List.range'_succ, List.foldl_cons]
    obtain ⟨hok2, hlen2⟩ := signalStep_sigOk so ts dv st i0 hok hlen
    exact ih _ _ hok2 hlen2

theorem obmForecast_null (M : JsMath) (hm : HeatmapData) (i : ℕ)
    (hi : i < (obmRawValues hm).length) (h3 : i < 3) :
    (obmForecastValues M hm).getD i (some 0) = none := by
  have hlen : i < (obmForecastValues M hm).length := by
    rw [obmForecastValues, List.length_map, List.length_range]
    exact hi
  rw [getD_lt _ _ _ hlen]
  simp only [obmForecastValues, List.getElem_map, List.getElem_range]
  rw [if_pos h3]

/-- Claim C4 (confirmed): for every heatmap accepted by the OBM detector
(at least 10 rows), every emitted signal is BUY, SELL or NONE; any two
non-NONE signal positions are more than 5 apart (the cooldown); the
oscillator arrays satisfy `obmValues.length = timestamps.length = T - 1`;
and the forecast is `null` (`none`) at the first three positions. -/
theorem C4_obm_signals (M : JsMath) (hm : HeatmapData) (h : 10 ≤ hm.heatmap.length) :
    (∀ s ∈ (calculateOBM M hm).signals, s = "BUY" ∨ s = "SELL" ∨ s = "NONE") ∧
    (∀ k1 k2, k1 < k2 → k2 < (calculateOBM M hm).signals.length →
      (calculateOBM M hm).signals.getD k1 "NONE" ≠ "NONE" →
      (calculateOBM M hm).signals.getD k2 "NONE" ≠ "NONE" → 5 < k2 - k1) ∧
    (calculateOBM M hm).obmValues.length = (calculateOBM M hm).timestamps.length ∧
    (calculateOBM M hm).timestamps.length = hm.heatmap.length - 1 ∧
    (∀ i < 3, (calculateOBM M hm).forecastValues.getD i (some 0) = none) := by
  have hg : ¬ (hm.heatmap.length < 10) := by omega
  have hn : (obmFinalValues hm).length = hm.heatmap.length - 1 := obmFinalValues_length hm
  have h5 : 5 ≤ (obmFinalValues hm).length := by omega
  have hok : SigOk (obmSignalState hm) := by
    rw [obmSignalState]
    apply signalFold_sigOk
    · refine ⟨?_, ?_, ?_⟩
      · intro s hs
        simp at hs
      · intro k hk
        simp at hk
      · intro k1 k2 _ hk2
        simp at hk2
    · rfl
  simp only [calculateOBM, if_neg hg, if_pos h5]
  refine ⟨hok.1, hok.2.2, ?_, ?_, ?_⟩
  · rw [hn, List.length_map, List.length_range']
  · rw [List.length_map, List.length_range']
  · intro i hi
    apply obmForecast_null
    · rw [obmRawValues_length]
      omega
    · exact hi

/-- Witness for C4 at the concrete ten-row heatmap `hmP1`. -/
theorem C4_witness :
    10 ≤ hmP1.heatmap.length ∧
    ((∀ s ∈ (calculateOBM M0 hmP1).signals, s = "BUY" ∨ s = "SELL" ∨ s = "NONE") ∧
     (∀ k1 k2, k1 < k2 → k2 < (calculateOBM M0 hmP1).signals.length →
       (calculateOBM M0 hmP1).signals.getD k1 "NONE" ≠ "NONE" →
       (calculateOBM M0 hmP1).signals.getD k2 "NONE" ≠ "NONE" → 5 < k2 - k1) ∧
     (calculateOBM M0 hmP1).obmValues.length = (calculateOBM M0 hmP1).timestamps.length ∧
     (calculateOBM M0 hmP1).timestamps.length = hmP1.heatmap.length - 1 ∧
     (∀ i < 3, (calculateOBM M0 hmP1).forecastValues.getD i (some 0) = none)) :=
  ⟨by decide, C4_obm_signals M0 hmP1 (by decide)⟩

/-! ## C10: the one-level grid and the NaN distance weight -/

theorem rowPressures_one (vol : List ℚ) : rowPressures 1 vol = (JNum.num 0, JNum.nan) := by
  simp [rowPressures, JNum.div, JNum.add, JNum.mul, List.range_succ]

theorem rowImbalance_one (vol : List ℚ) : rowImbalance 1 vol = 0 := by
  rw [rowImbalance, rowPressures_one]

theorem obmImbalance_p1 (hm : HeatmapData) (hP : hm.priceLevels.length = 1) (i : ℕ) :
    obmImbalance hm i = 0 := by
  rw [obmImbalance, hP, rowImbalance_one]

theorem obmRaw_p1 (hm : HeatmapData) (hP : hm.priceLevels.length = 1) (i : ℕ) :
    obmRaw hm i = 0 := by
  rw [obmRaw, obmImbalanceChange]
  split
  · simp [obmImbalance_p1 hm hP]
  · simp [obmImbalance_p1 hm hP]

theorem obmRawValues_p1 (hm : HeatmapData) (hP : hm.priceLevels.length = 1) :
    obmRawValues hm = List.replicate (hm.heatmap.length - 1) 0 := by
  rw [List.eq_replicate_iff]
  refine ⟨obmRawValues_length hm, ?_⟩
  intro b hb
  rw [obmRawValues, List.mem_map] at hb
  obtain ⟨i, _, rfl⟩ := hb
  exact obmRaw_p1 hm hP i

theorem emaAux_zero (a : ℚ) : ∀ m : ℕ, emaAux a 0 (List.replicate m 0) = List.replicate m 0 := by
  intro m
  induction m with
  | zero => rfl
  | succ m ih =>
    rw [List.replicate_succ]
    simp only [emaAux]
    have h0 : (0:ℚ) * a + 0 * (1 - a) = 0 := by ring
    rw [h0, ih]

theorem ema_replicate_zero (a : ℚ) (m : ℕ) :
    exponentialMovingAverage (List.replicate m 0) a = List.replicate m 0 := by
  cases m with
  | zero => rfl
  | succ m =>
    rw [List.replicate_succ]
    simp only [exponentialMovingAverage]
    rw [emaAux_zero]

theorem slope_sums_zero :
    ∀ (l : List (ℕ × ℚ)), (∀ p ∈ l, p.2 = 0) → ∀ acc : ℚ × ℚ × ℚ × ℚ,
      ((l.foldl (fun (acc : ℚ × ℚ × ℚ × ℚ) iv =>
        (acc.1 + (iv.1 : ℚ), acc.2.1 + iv.2, acc.2.2.1 + (iv.1 : ℚ) * iv.2,
         acc.2.2.2 + (iv.1 : ℚ) * (iv.1 : ℚ))) acc).2.1 = acc.2.1 ∧
       (l.foldl (fun (acc : ℚ × ℚ × ℚ × ℚ) iv =>
        (acc.1 + (iv.1 : ℚ), acc.2.1 + iv.2, acc.2.2.1 + (iv.1 : ℚ) * iv.2,
         acc.2.2.2 + (iv.1 : ℚ) * (iv.1 : ℚ))) acc).2.2.1 = acc.2.2.1) := by
  intro l
  induction l with
  | nil => intro _ acc; exact ⟨rfl, rfl⟩
  | cons p l ih =>
    intro h acc
    have hp : p.2 = 0 := h p (List.mem_cons_self _ _)
    have hl : ∀ q ∈ l, q.2 = 0 := fun q hq => h q (List.mem_cons_of_mem _ hq)
    rw [List.foldl_cons]
    obtain ⟨g1, g2⟩ := ih hl _
    constructor
    · rw [g1]
      simp [hp]
    · rw [g2]
      simp [hp]

theorem slope_of_zeros (l : List ℚ) (h : ∀ v ∈ l, v = 0) :
    calculateLinearRegressionSlope l = 0 := by
  simp only [calculateLinearRegressionSlope]
  split
  · rfl
  · have henum : ∀ p ∈ l.enum, p.2 = 0 := by
      intro p hp
      exact h p.2 (List.getElem?_mem (List.mem_enum_iff_getElem?.1 hp))
    obtain ⟨g1, g2⟩ := slope_sums_zero l.enum henum (0, 0, 0, 0)
    rw [g1, g2]
    simp

theorem obmTrend_p1 (hm : HeatmapData) (hP : hm.priceLevels.length = 1) :
    obmTrendValues hm = List.replicate (hm.heatmap.length - 1) 0 := by
  rw [List.eq_replicate_iff]
  constructor
  · rw [obmTrendValues, List.length_map, List.length_range, obmRawValues_length]
  · intro b hb
    rw [obmTrendValues, List.mem_map] at hb
    obtain ⟨i, _, rfl⟩ := hb
    split
    · rfl
    · apply slope_of_zeros
      intro v hv
      have hv2 : v ∈ obmRawValues hm :=
        List.mem_of_mem_drop (List.mem_of_mem_take hv)
      rw [obmRawValues_p1 hm hP] at hv2
      exact List.eq_of_mem_replicate hv2

theorem getD_replicate_zero (m i : ℕ) : (List.replicate m (0:ℚ)).getD i 0 = 0 := by
  by_cases h : i < m
  · rw [getD_lt _ _ _ (by simpa using h)]
    exact List.getElem_replicate ..
  · rw [List.getD_eq_getElem?_getD, List.getElem?_eq_none (by simpa using h)]
    rfl

theorem obm_p1_obmValues (M : JsMath) (hm : HeatmapData) (hP : hm.priceLevels.length = 1)
    (hT : 10 ≤ hm.heatmap.length) :
    (calculateOBM M hm).obmValues = List.replicate (hm.heatmap.length - 1) 0 := by
  have hg : ¬ (hm.heatmap.length < 10) := by omega
  have hfinal : obmFinalValues hm = List.replicate (hm.heatmap.length - 1) 0 := by
    rw [List.eq_replicate_iff]
    refine ⟨obmFinalValues_length hm, ?_⟩
    intro b hb
    rw [obmFinalValues, List.mem_map] at hb
    obtain ⟨i, _, rfl⟩ := hb
    rw [obmEmaValues, obmRawValues_p1 hm hP, ema_replicate_zero, getD_replicate_zero,
      obmTrend_p1 hm hP, getD_replicate_zero]
    norm_num
  have h5 : 5 ≤ (obmFinalValues hm).length := by
    rw [obmFinalValues_length]
    omega
  simp only [calculateOBM, if_neg hg, if_pos h5]
  exact hfinal

/-- Counterexample for claim C10: on the ten-row single-level heatmap
`hmP1` the stage-1 sell-pressure accumulator is indeed NaN (the distance
weight computes `0 / 0`), but the returned `obmValues` are the nine-element
all-zero sequence — every entry is the (finite) rational `0`, because the
`totalPressure > 0` guard is false for NaN and maps each imbalance to `0`.
The claim that `obmValues` contain NaN is false. -/
theorem C10_counterexample :
    (rowPressures hmP1.priceLevels.length (hmP1.heatmap.getD 0 [])).2 = JNum.nan ∧
    (calculateOBM M0 hmP1).obmValues = List.replicate 9 0 := by
  constructor
  · rw [show hmP1.priceLevels.length = 1 from rfl, rowPressures_one]
  · have h := obm_p1_obmValues M0 hmP1 (by decide) (by decide)
    rw [show hmP1.heatmap.length - 1 = 9 from rfl] at h
    exact h

/-- Claim C10, amended: with a single price level (`P = 1`) the OBM
detector's distance weight divides by `middleIndex = 0`, producing NaN
weighted volumes and a NaN sell-pressure accumulator — but the imbalance
guard `totalPressure > 0` is false for NaN, so every row imbalance becomes
`0` and the returned `obmValues` are all exactly `0` (finite), not NaN. -/
theorem C10_nan_guard (M : JsMath) (hm : HeatmapData) (hP : hm.priceLevels.length = 1)
    (hT : 10 ≤ hm.heatmap.length) :
    (∀ i, (rowPressures hm.priceLevels.length (hm.heatmap.getD i [])).2 = JNum.nan) ∧
    (calculateOBM M hm).obmValues = List.replicate (hm.heatmap.length - 1) 0 := by
  constructor
  · intro i
    rw [hP, rowPressures_one]
  · exact obm_p1_obmValues M hm hP hT

/-- Witness for the amended C10 theorem at the concrete heatmap `hmP1`. -/
theorem C10_witness :
    hmP1.priceLevels.length = 1 ∧ 10 ≤ hmP1.heatmap.length ∧
    ((∀ i, (rowPressures hmP1.priceLevels.length (hmP1.heatmap.getD i [])).2 = JNum.nan) ∧
     (calculateOBM M0 hmP1).obmValues = List.replicate (hmP1.heatmap.length - 1) 0) :=
  ⟨by decide, by decide, C10_nan_guard M0 hmP1 (by decide) (by decide)⟩

/-- A concrete three-point path whose resistances are field values. -/
def pathC7w : List PathPoint :=
  [{ time := 0, price := 100, resistance := 1 },
   { time := 3600000, price := 101, resistance := 2 },
   { time := 7200000, price := 100, resistance := 3 }]

/-- Witness for C7 at the concrete path `pathC7w`. -/
theorem C7_witness :
    ((∀ pt ∈ pathC7w, 1 ≤ pt.resistance) ∧ 3 ≤ pathC7w.length) ∧
    ((calculateOpticalMomentum M0 pathC7w).1.length = pathC7w.length ∧
     ∀ c ∈ (calculateOpticalMomentum M0 pathC7w).2, 0.3 < c ∧ c ≤ 1) :=
  ⟨⟨by decide, by decide⟩,
   C7_momentum_confidence M0 pathC7w M0_expLike M0_cosLike (by decide) (by decide)⟩
